import Mathlib

/-!
Verification development for the timetable generator
(src/timetable-generator.js, class AdvancedTimetableGenerator).

The JavaScript source is shallowly embedded as executable Lean functions.
Conventions used throughout:

* JavaScript object identity is modelled by a numeric `id` field on every
  created session object; a fresh-id counter is threaded through the
  functions that create session objects.  The deep copy performed by
  `optimizeTimetable` (a JSON round trip) preserves the distinctness of
  the copied objects, so it is the identity on these values.
* `Math.floor(Math.random() * n)` is modelled by `randBelow n`, reading a
  process-local stream of naturals (`Rng`); each call consumes one value.
  Any value in `[0, n)` is reachable, matching an arbitrary random source.
* Code paths that throw a TypeError in JavaScript (property access on
  `undefined`) return `Except.error "TypeError"`.
* String comparison operators are modelled as code-point comparison over
  the character list; the time strings occurring in this program are
  ASCII, where this coincides with the JavaScript operators (and, for the
  digit/colon strings used as sort keys, with `localeCompare`).
* `Number(s)` is modelled for the non-negative decimal numerals that the
  time strings of this program contain.
-/

namespace SempTT

/-- Code-point comparison of character lists (strict less-than). -/
def strLtAux : List Char → List Char → Bool
  | [], [] => false
  | [], _ :: _ => true
  | _ :: _, [] => false
  | a :: as, b :: bs =>
    if a.toNat < b.toNat then true
    else if b.toNat < a.toNat then false
    else strLtAux as bs

/-- JavaScript string operator a < b (code-point order). -/
def jsLt (a b : String) : Bool := strLtAux a.data b.data

/-- JavaScript string operator a <= b (code-point order). -/
def jsLe (a b : String) : Bool := !(jsLt b a)

/-- Splits a character list at every occurrence of the separator. -/
def splitChAux (c : Char) : List Char → List Char → List (List Char)
  | [], acc => [acc.reverse]
  | x :: xs, acc =>
    if x = c then acc.reverse :: splitChAux c xs []
    else splitChAux c xs (x :: acc)

/-- JavaScript s.split(sep) for a one-character separator. -/
def jsSplit (s : String) (c : Char) : List String :=
  (splitChAux c s.data []).map String.mk

/-- Part i of a split, modelling split(sep)[i] on the well-formed time
strings of this program (an out-of-range index yields the empty string). -/
def splitPart (s : String) (c : Char) (i : Nat) : String :=
  (jsSplit s c).getD i ""

/-- Decimal numeral value, modelling Number(s) on the digit strings of this
program. -/
def digitsToNatAux : List Char → Nat → Nat
  | [], acc => acc
  | ch :: cs, acc => digitsToNatAux cs (acc * 10 + (ch.toNat - 48))

/-- Number(s) as an integer, for the non-negative numerals that occur here. -/
def jsNum (s : String) : Int := Int.ofNat (digitsToNatAux s.data 0)

/-- JavaScript truthiness of a possibly-undefined string (undefined and the
empty string are falsy). -/
def jsTruthy : Option String → Bool
  | none => false
  | some s => s ≠ ""

/-- JavaScript expression o || d for a possibly-undefined string value. -/
def jsOrStr (o : Option String) (d : String) : String :=
  match o with
  | none => d
  | some s => if s = "" then d else s

/-- JavaScript expression o || d for a possibly-undefined number (0 is
falsy). -/
def jsOrNat (o : Option Nat) (d : Nat) : Nat :=
  match o with
  | none => d
  | some n => if n = 0 then d else n

/-- Stable insertion into a sorted list: the new element is placed after
every existing element le-below-or-equal to it. -/
def insertSorted (le : α → α → Bool) (x : α) : List α → List α
  | [] => [x]
  | y :: l => if le y x then y :: insertSorted le x l else x :: y :: l

/-- Stable sort (Array.prototype.sort with a comparator is stable, so the
output order is exactly the one produced by any stable sort). -/
def jsSortBy (le : α → α → Bool) (l : List α) : List α :=
  l.foldl (fun acc x => insertSorted le x acc) []

/-- Process-local random source: a stream of naturals. -/
abbrev Rng := Nat → Nat

/-- A stream read off a finite list (0 past the end). -/
def streamOf (l : List Nat) : Rng := fun i => l.getD i 0

/-- Math.floor(Math.random() * n): consumes one stream value; any result in
[0, n) is reachable.  For n = 0 the JavaScript expression is 0. -/
def randBelow (n : Nat) (r : Rng) : Nat × Rng :=
  ((if n == 0 then 0 else r 0 % n), fun i => r (i + 1))

instance exceptDecEq {ε α : Type} [DecidableEq ε] [DecidableEq α] : DecidableEq (Except ε α) := fun a b =>
  match a, b with
  | .ok x, .ok y =>
    if h : x = y then isTrue (by rw [h]) else isFalse (by simp [h])
  | .error x, .error y =>
    if h : x = y then isTrue (by rw [h]) else isFalse (by simp [h])
  | .ok _, .error _ => isFalse (by simp)
  | .error _, .ok _ => isFalse (by simp)

/-- Room record (name, type in classroom or lab, capacity). -/
structure Room where
  name : String
  type : String
  capacity : Nat
  deriving DecidableEq, Repr

instance : Inhabited Room := ⟨⟨"", "", 0⟩⟩

/-- Course record.  expectedStudents and labCredits are optional in the
input data (JavaScript undefined is None). -/
structure Course where
  name : String
  code : String
  type : String
  teacherId : String
  credits : Nat
  labCredits : Option Nat
  expectedStudents : Option Nat
  deriving DecidableEq, Repr

/-- Faculty record (read-only input; the generator never inspects it). -/
structure Faculty where
  name : String
  deriving DecidableEq, Repr

/-- Timeslot record with start and end times and a kind tag. -/
structure Slot where
  start : String
  stop : String
  type : String
  deriving DecidableEq, Repr

/-- Time string of a slot, the template start-end. -/
def slotTimeStr (s : Slot) : String := s.start ++ "-" ++ s.stop

/-- A scheduled entry of the weekly grid.  Breaks and lunch markers carry
none for the fields their object literals omit.  The id field models
JavaScript object identity. -/
structure Session where
  id : Nat
  time : String
  course : String
  code : Option String
  teacher : Option String
  room : Option String
  type : String
  credits : Option Nat
  duration : Option Nat
  isBreak : Bool
  isLunch : Bool
  deriving DecidableEq, Repr

/-- Weekly grid: insertion-ordered day-to-sessions object. -/
abbrev Grid := List (String × List Session)

/-- The six constraint fields of the generator. -/
structure Constraints where
  MAX_CLASSES_PER_DAY : Nat
  MAX_HOURS_PER_DAY : Nat
  LAB_DURATION : Nat
  MIN_BREAK_BETWEEN_CLASSES : Int
  LUNCH_BREAK : Nat
  THEORY_DURATION : Nat
  deriving DecidableEq, Repr

/-- The defaults installed by the constructor (this.constraints). -/
def defaultConstraints : Constraints :=
  { MAX_CLASSES_PER_DAY := 6
    MAX_HOURS_PER_DAY := 8
    LAB_DURATION := 2
    MIN_BREAK_BETWEEN_CLASSES := 10
    LUNCH_BREAK := 60
    THEORY_DURATION := 1 }

/-- Caller-supplied constraint overrides (absent fields are undefined). -/
structure ConstraintOverrides where
  MAX_CLASSES_PER_DAY : Option Nat := none
  MAX_HOURS_PER_DAY : Option Nat := none
  LAB_DURATION : Option Nat := none
  MIN_BREAK_BETWEEN_CLASSES : Option Int := none
  LUNCH_BREAK : Option Nat := none
  THEORY_DURATION : Option Nat := none
  deriving DecidableEq, Repr

/-- Object spread merge of overrides onto the defaults. -/
def mergeConstraints (base : Constraints) (o : ConstraintOverrides) : Constraints :=
  { MAX_CLASSES_PER_DAY := o.MAX_CLASSES_PER_DAY.getD base.MAX_CLASSES_PER_DAY
    MAX_HOURS_PER_DAY := o.MAX_HOURS_PER_DAY.getD base.MAX_HOURS_PER_DAY
    LAB_DURATION := o.LAB_DURATION.getD base.LAB_DURATION
    MIN_BREAK_BETWEEN_CLASSES := o.MIN_BREAK_BETWEEN_CLASSES.getD base.MIN_BREAK_BETWEEN_CLASSES
    LUNCH_BREAK := o.LUNCH_BREAK.getD base.LUNCH_BREAK
    THEORY_DURATION := o.THEORY_DURATION.getD base.THEORY_DURATION }

/-- The catalogue data handed to generateTimetable. -/
structure SectionData where
  department : String
  semester : String
  sectionName : String
  courses : List Course
  faculties : List Faculty
  rooms : List Room
  timeslots : List Slot
  deriving DecidableEq, Repr

/-- The value returned by generateTimetable: the grid properties spread
together with sectionId and the merged constraints (the generatedAt
wall-clock timestamp is not modelled). -/
structure GeneratedTimetable where
  timetable : Grid
  sectionId : String
  constraints : Constraints
  deriving DecidableEq, Repr

/-- Day-keyed lookup, timetable[day]; None models undefined. -/
def lookupDay (g : Grid) (day : String) : Option (List Session) :=
  match g with
  | [] => none
  | (k, v) :: rest => if k = day then some v else lookupDay rest day

/-- Day schedule with the empty default (used only where the day is known
to be a key of the grid). -/
def getDay (g : Grid) (day : String) : List Session :=
  (lookupDay g day).getD []

/-- In-place update of the list bound to an existing day key. -/
def setDay (g : Grid) (day : String) (l : List Session) : Grid :=
  match g with
  | [] => []
  | (k, v) :: rest => if k = day then (day, l) :: rest else (k, v) :: setDay rest day l

/-- timetable[day].push(s) for a day known to be a key. -/
def pushDay (g : Grid) (day : String) (s : Session) : Grid :=
  setDay g day (getDay g day ++ [s])

/-- The day keys of the grid, in insertion order (Object.keys). -/
def gridKeys (g : Grid) : List String := g.map Prod.fst

/-- All sessions of the grid in day order (Object.values flattened). -/
def allSessions (g : Grid) : List Session := (g.map Prod.snd).flatten

/-- initializeTimetable: six empty day lists, Monday through Saturday. -/
def initTimetable : Grid :=
  [("Monday", []), ("Tuesday", []), ("Wednesday", []), ("Thursday", []),
   ("Friday", []), ("Saturday", [])]

/-- The five teaching days sampled by getRandomDay. -/
def weekdays : List String :=
  ["Monday", "Tuesday", "Wednesday", "Thursday", "Friday"]

/-- getRandomDay: a uniformly random weekday. -/
def getRandomDay (r : Rng) : String × Rng :=
  let (i, r1) := randBelow weekdays.length r
  (weekdays.getD i "", r1)

/-- findSuitableRoom: a random classroom with sufficient capacity, else the
first classroom, else the literal Room 201. -/
def findSuitableRoom (rooms : List Room) (course : Course) (r : Rng) : String × Rng :=
  let suitableRooms := rooms.filter
    (fun room => room.type == "classroom" && jsOrNat course.expectedStudents 60 ≤ room.capacity)
  if suitableRooms.length = 0 then
    (jsOrStr ((rooms.find? (fun room => room.type == "classroom")).map Room.name) "Room 201", r)
  else
    let (i, r1) := randBelow suitableRooms.length r
    ((suitableRooms.getD i default).name, r1)

/-- findLabRoom: a random lab room, else the literal Lab 101. -/
def findLabRoom (rooms : List Room) (_course : Course) (r : Rng) : String × Rng :=
  let labRooms := rooms.filter (fun room => room.type == "lab")
  if labRooms.length = 0 then ("Lab 101", r)
  else
    let (i, r1) := randBelow labRooms.length r
    ((labRooms.getD i default).name, r1)

/-- daySchedule.some(cb) where the callback builds the slot time template:
with an undefined slot the property access throws, but only when the
callback actually runs, i.e. when the schedule is nonempty. -/
def anyWithSlotTime (l : List Session) (slot : Option Slot) (p : Session → String → Bool) :
    Except String Bool :=
  match l with
  | [] => .ok false
  | _ :: _ =>
    match slot with
    | none => .error "TypeError"
    | some s => .ok (l.any (fun sc => p sc (slotTimeStr s)))

/-- canScheduleCourse: teacher free at the slot time, a freshly sampled
suitable room free at the slot time, and the daily class ceiling not yet
reached. -/
def canScheduleCourse (timetable : Grid) (day : String) (slot : Option Slot) (course : Course)
    (_faculties : List Faculty) (rooms : List Room) (constraints : Constraints) (r : Rng) :
    Except String (Bool × Rng) :=
  match lookupDay timetable day with
  | none => .error "TypeError"
  | some daySchedule =>
    match anyWithSlotTime daySchedule slot
        (fun sc st => sc.teacher == some course.teacherId && sc.time == st) with
    | .error e => .error e
    | .ok teacherConflict =>
      if teacherConflict then .ok (false, r)
      else
        let (room, r1) := findSuitableRoom rooms course r
        match anyWithSlotTime daySchedule slot
            (fun sc st => sc.room == some room && sc.time == st) with
        | .error e => .error e
        | .ok roomConflict =>
          if roomConflict then .ok (false, r1)
          else if constraints.MAX_CLASSES_PER_DAY ≤ daySchedule.length then .ok (false, r1)
          else .ok (true, r1)

/-- canScheduleLab: teacher free the whole day, a freshly sampled lab room
free the whole day, and no session anywhere in the week already carrying
the lab code of this course.  The slot is never inspected. -/
def canScheduleLab (timetable : Grid) (day : String) (_slot : Option Slot) (course : Course)
    (_faculties : List Faculty) (rooms : List Room) (_constraints : Constraints) (r : Rng) :
    Except String (Bool × Rng) :=
  match lookupDay timetable day with
  | none => .error "TypeError"
  | some daySchedule =>
    let teacherConflict := daySchedule.any (fun sc => sc.teacher == some course.teacherId)
    if teacherConflict then .ok (false, r)
    else
      let (labRoom, r1) := findLabRoom rooms course r
      let roomConflict := daySchedule.any (fun sc => sc.room == some labRoom)
      if roomConflict then .ok (false, r1)
      else
        let labScheduledThisWeek := (g_values timetable).any
          (fun dayClasses => dayClasses.any (fun sc => sc.code == some (course.code ++ "L")))
        if labScheduledThisWeek then .ok (false, r1)
        else .ok (true, r1)
where
  g_values (g : Grid) : List (List Session) := g.map Prod.snd

/-- One theory placement attempt loop (while !scheduled and attempts <
maxAttempts); fuel counts the remaining attempts.  Exhaustion only logs a
console warning and leaves the grid unchanged. -/
def theoryAttemptLoop (timetable : Grid) (theorySlots : List Slot) (course : Course)
    (faculties : List Faculty) (rooms : List Room) (constraints : Constraints)
    (nextId : Nat) : Nat → Rng → Except String (Grid × Nat × Rng)
  | 0, r => .ok (timetable, nextId, r)
  | fuel + 1, r =>
    let (randomDay, r1) := getRandomDay r
    let (i, r2) := randBelow theorySlots.length r1
    let randomSlot := theorySlots[i]?
    match canScheduleCourse timetable randomDay randomSlot course faculties rooms constraints r2 with
    | .error e => .error e
    | .ok (ok, r3) =>
      if ok then
        match randomSlot with
        | none => .error "TypeError"
        | some s =>
          let (room, r4) := findSuitableRoom rooms course r3
          let sess : Session :=
            { id := nextId
              time := slotTimeStr s
              course := course.name
              code := some course.code
              teacher := some course.teacherId
              room := some room
              type := "theory"
              credits := some course.credits
              duration := none
              isBreak := false
              isLunch := false }
          match lookupDay timetable randomDay with
          | none => .error "TypeError"
          | some _ => .ok (pushDay timetable randomDay sess, nextId + 1, r4)
      else
        theoryAttemptLoop timetable theorySlots course faculties rooms constraints nextId fuel r3

/-- The per-course loop of scheduleTheoryCourses. -/
def scheduleTheoryGo (faculties : List Faculty) (rooms : List Room) (timeslots : List Slot)
    (constraints : Constraints) :
    List Course → Grid → Nat → Rng → Except String (Grid × Nat × Rng)
  | [], g, n, r => .ok (g, n, r)
  | course :: rest, g, n, r =>
    match theoryAttemptLoop g (timeslots.filter (fun slot => slot.type == "theory")) course
        faculties rooms constraints n 100 r with
    | .error e => .error e
    | .ok (g1, n1, r1) => scheduleTheoryGo faculties rooms timeslots constraints rest g1 n1 r1

/-- scheduleTheoryCourses: per course, up to 100 random placement attempts. -/
def scheduleTheoryCourses (timetable : Grid) (courses : List Course) (faculties : List Faculty)
    (rooms : List Room) (timeslots : List Slot) (constraints : Constraints)
    (nextId : Nat) (r : Rng) : Except String (Grid × Nat × Rng) :=
  scheduleTheoryGo faculties rooms timeslots constraints courses timetable nextId r

/-- One lab placement attempt loop (up to 50 attempts); the day is sampled
from the local Monday-Friday list. -/
def labAttemptLoop (timetable : Grid) (labSlots : List Slot) (course : Course)
    (faculties : List Faculty) (rooms : List Room) (constraints : Constraints)
    (nextId : Nat) : Nat → Rng → Except String (Grid × Nat × Rng)
  | 0, r => .ok (timetable, nextId, r)
  | fuel + 1, r =>
    let (di, r1) := randBelow weekdays.length r
    let randomDay := weekdays.getD di ""
    let (i, r2) := randBelow labSlots.length r1
    let randomSlot := labSlots[i]?
    match canScheduleLab timetable randomDay randomSlot course faculties rooms constraints r2 with
    | .error e => .error e
    | .ok (ok, r3) =>
      if ok then
        match randomSlot with
        | none => .error "TypeError"
        | some s =>
          let (room, r4) := findLabRoom rooms course r3
          let sess : Session :=
            { id := nextId
              time := slotTimeStr s
              course := course.name ++ " Lab"
              code := some (course.code ++ "L")
              teacher := some course.teacherId
              room := some room
              type := "lab"
              credits := some (jsOrNat course.labCredits 1)
              duration := some 2
              isBreak := false
              isLunch := false }
          match lookupDay timetable randomDay with
          | none => .error "TypeError"
          | some _ => .ok (pushDay timetable randomDay sess, nextId + 1, r4)
      else
        labAttemptLoop timetable labSlots course faculties rooms constraints nextId fuel r3

/-- The per-course loop of scheduleLabCourses. -/
def scheduleLabGo (faculties : List Faculty) (rooms : List Room) (timeslots : List Slot)
    (constraints : Constraints) :
    List Course → Grid → Nat → Rng → Except String (Grid × Nat × Rng)
  | [], g, n, r => .ok (g, n, r)
  | course :: rest, g, n, r =>
    match labAttemptLoop g (timeslots.filter (fun slot => slot.type == "lab")) course
        faculties rooms constraints n 50 r with
    | .error e => .error e
    | .ok (g1, n1, r1) => scheduleLabGo faculties rooms timeslots constraints rest g1 n1 r1

/-- scheduleLabCourses: per course, up to 50 random placement attempts. -/
def scheduleLabCourses (timetable : Grid) (courses : List Course) (faculties : List Faculty)
    (rooms : List Room) (timeslots : List Slot) (constraints : Constraints)
    (nextId : Nat) (r : Rng) : Except String (Grid × Nat × Rng) :=
  scheduleLabGo faculties rooms timeslots constraints courses timetable nextId r

/-- getTimeDifference: minutes from time1 to time2, parsing H:MM strings. -/
def getTimeDifference (time1 time2 : String) : Int :=
  let h1 := jsNum (splitPart time1 ':' 0)
  let m1 := jsNum (splitPart time1 ':' 1)
  let h2 := jsNum (splitPart time2 ':' 0)
  let m2 := jsNum (splitPart time2 ':' 1)
  (h2 - h1) * 60 + (m2 - m1)

/-- Sort of a day schedule by localeCompare of the start-time substring
(Array.prototype.sort is stable, so a stable sort reproduces its output). -/
def sortDaySchedule (l : List Session) : List Session :=
  jsSortBy (fun a b => jsLe (splitPart a.time '-' 0) (splitPart b.time '-' 0)) l

/-- The break marker object literal. -/
def breakSession (nextId : Nat) (t : String) : Session :=
  { id := nextId, time := t, course := "Break", code := none, teacher := none,
    room := none, type := "break", credits := none, duration := none,
    isBreak := true, isLunch := false }

/-- The lunch marker object literal. -/
def lunchSession (nextId : Nat) : Session :=
  { id := nextId, time := "12:00-1:00", course := "Lunch", code := none, teacher := none,
    room := none, type := "lunch", credits := none, duration := none,
    isBreak := false, isLunch := true }

/-- The break-insertion loop of addBreaksAndLunch: after every element but
the last, a break marker is pushed when the gap to the next element
exceeds minBreak. -/
def insertBreaksAux (minBreak : Int) : List Session → Nat → List Session × Nat
  | [], n => ([], n)
  | [a], n => ([a], n)
  | a :: b :: rest, n =>
    let currentEnd := splitPart a.time '-' 1
    let nextStart := splitPart b.time '-' 0
    if minBreak < getTimeDifference currentEnd nextStart then
      let (tail, n1) := insertBreaksAux minBreak (b :: rest) (n + 1)
      (a :: breakSession n (currentEnd ++ "-" ++ nextStart) :: tail, n1)
    else
      let (tail, n1) := insertBreaksAux minBreak (b :: rest) n
      (a :: tail, n1)

/-- The lunch-insertion step of addBreaksAndLunch: unless a session already
covers the canonical window, a lunch marker is spliced in right after the
first session whose end-time string is at least 12:00 (string comparison);
with no such session (in particular on an empty day) nothing is inserted. -/
def addLunch (l : List Session) (n : Nat) : List Session × Nat :=
  let lunchTime := "12:00-1:00"
  let hasClassDuringLunch := l.any (fun cls =>
    cls.time == lunchTime ||
      (jsLe (splitPart cls.time '-' 0) "12:00" && jsLe "1:00" (splitPart cls.time '-' 1)))
  if hasClassDuringLunch then (l, n)
  else
    match l.findIdx? (fun cls => jsLe "12:00" (splitPart cls.time '-' 1)) with
    | none => (l, n)
    | some lunchIndex =>
      (l.take (lunchIndex + 1) ++ lunchSession n :: l.drop (lunchIndex + 1), n + 1)

/-- Per-day body of addBreaksAndLunch.  The gap threshold read by the
source is this.constraints.MIN_BREAK_BETWEEN_CLASSES, i.e. the constructor
defaults, not the constraints merged with the caller overrides (which are
not passed to this method at all). -/
def addBreaksDay (l : List Session) (n : Nat) : List Session × Nat :=
  let sorted := sortDaySchedule l
  let (withBreaks, n1) := insertBreaksAux defaultConstraints.MIN_BREAK_BETWEEN_CLASSES sorted n
  addLunch withBreaks n1

/-- Day-order traversal of addBreaksAndLunch (each day is rewritten
independently; the timeslots argument is unused by the source body). -/
def abGo : Grid → Nat → Grid × Nat
  | [], n => ([], n)
  | (day, l) :: rest, n =>
    let (l1, n1) := addBreaksDay l n
    let (rest1, n2) := abGo rest n1
    ((day, l1) :: rest1, n2)

/-- addBreaksAndLunch over the whole grid. -/
def addBreaksAndLunch (timetable : Grid) (_timeslots : List Slot) (n : Nat) : Grid × Nat :=
  abGo timetable n

/-- The push-then-filter relocation shared verbatim by
moveClassToResolveConflict and redistributeClasses: push the object onto
the target day and remove it (by object identity) from the source day. -/
def transferClass (g : Grid) (fromDay toDay : String) (cls : Session) : Grid :=
  let g1 := pushDay g toDay cls
  setDay g1 fromDay ((getDay g1 fromDay).filter (fun c => c.id != cls.id))

/-- The for-of loop of moveClassToResolveConflict: first other day with no
same-time same-teacher session receives the class; with none, the grid is
left unchanged. -/
def moveGo (day : String) (classToMove : Session) : List String → Grid → Grid
  | [], g => g
  | otherDay :: restDays, g =>
    let hasConflict := (getDay g otherDay).any
      (fun cls => cls.time == classToMove.time && cls.teacher == classToMove.teacher)
    if hasConflict then moveGo day classToMove restDays g
    else transferClass g day otherDay classToMove

/-- moveClassToResolveConflict. -/
def moveClassToResolveConflict (timetable : Grid) (day : String) (classToMove : Session) : Grid :=
  moveGo day classToMove ((gridKeys timetable).filter (fun d => d ≠ day)) timetable

/-- Per-session step of resolveTeacherConflicts: sessions with a truthy
teacher that are not markers are keyed by day, time and teacher; a repeated
key triggers a relocation attempt. -/
def rtcSession (day : String) (g : Grid) (seen : List String) (cls : Session) :
    Grid × List String :=
  if jsTruthy cls.teacher && !cls.isBreak && !cls.isLunch then
    let key := day ++ "_" ++ cls.time ++ "_" ++ cls.teacher.getD ""
    if seen.contains key then (moveClassToResolveConflict g day cls, seen)
    else (g, key :: seen)
  else (g, seen)

/-- Fold of resolveTeacherConflicts over one day snapshot. -/
def rtcDay (day : String) : List Session → Grid → List String → Grid × List String
  | [], g, seen => (g, seen)
  | cls :: rest, g, seen =>
    let (g1, seen1) := rtcSession day g seen cls
    rtcDay day rest g1 seen1

/-- Day-order traversal of resolveTeacherConflicts.  Object.entries
captures the array references up front; since a day bucket is reassigned
only while that day itself is being processed, and pushes into other days
mutate the captured arrays in place before their forEach begins, reading
each day bucket at the moment its iteration starts reproduces the
JavaScript visit order exactly. -/
def rtcGo : List String → Grid → List String → Grid
  | [], g, _ => g
  | day :: rest, g, seen =>
    let (g1, seen1) := rtcDay day (getDay g day) g seen
    rtcGo rest g1 seen1

/-- resolveTeacherConflicts. -/
def resolveTeacherConflicts (g : Grid) : Grid := rtcGo (gridKeys g) g []

/-- findAlternativeRoom: first entry of the fixed pool different from the
current room, with the literal Room 201 fallback. -/
def findAlternativeRoom (currentRoom : String) : String :=
  let alternativeRooms := ["Room 202", "Room 203", "Room 204", "Room 205"]
  jsOrStr (alternativeRooms.find? (fun room => room ≠ currentRoom)) "Room 201"

/-- Per-session step of resolveRoomConflicts: a repeated day-time-room key
rewrites the room field of the session in place. -/
def rrcSession (day : String) (seen : List String) (cls : Session) : Session × List String :=
  if jsTruthy cls.room && !cls.isBreak && !cls.isLunch then
    let key := day ++ "_" ++ cls.time ++ "_" ++ cls.room.getD ""
    if seen.contains key then
      ({ cls with room := some (findAlternativeRoom (cls.room.getD "")) }, seen)
    else (cls, key :: seen)
  else (cls, seen)

/-- Fold of resolveRoomConflicts over one day (no relocations occur in
this pass, only field rewrites). -/
def rrcDay (day : String) : List Session → List String → List Session × List String
  | [], seen => ([], seen)
  | cls :: rest, seen =>
    let (cls1, seen1) := rrcSession day seen cls
    let (rest1, seen2) := rrcDay day rest seen1
    (cls1 :: rest1, seen2)

/-- Day-order traversal of resolveRoomConflicts. -/
def rrcGo : Grid → List String → Grid
  | [], _ => []
  | (day, l) :: rest, seen =>
    let (l1, seen1) := rrcDay day l seen
    (day, l1) :: rrcGo rest seen1

/-- resolveRoomConflicts. -/
def resolveRoomConflicts (g : Grid) : Grid := rrcGo g []

/-- Per-day theory-or-lab session counts (the dayWorkload object). -/
def dayWorkloads (g : Grid) : List (String × Nat) :=
  g.map (fun e => (e.1, (e.2.filter (fun cls => cls.type == "theory" || cls.type == "lab")).length))

/-- The target-day expression of redistributeClasses: the first other day
whose current bucket is shorter than the current source bucket, with the
JavaScript or-else fallback to the first other day (an empty-string day
name is falsy and falls through to the fallback as well). -/
def rcTarget (fromDay : String) (otherDays : List String) (g : Grid) : Option String :=
  match otherDays.find? (fun day => (getDay g day).length < (getDay g fromDay).length) with
  | some d => if d = "" then otherDays[0]? else some d
  | none => otherDays[0]?

/-- The forEach body of redistributeClasses: each class to move goes to the
target day; a falsy (undefined or empty) target day skips the move. -/
def rcGo (fromDay : String) (otherDays : List String) : List Session → Grid → Grid
  | [], g => g
  | cls :: rest, g =>
    match rcTarget fromDay otherDays g with
    | none => rcGo fromDay otherDays rest g
    | some t =>
      if t = "" then rcGo fromDay otherDays rest g
      else rcGo fromDay otherDays rest (transferClass g fromDay t cls)

/-- redistributeClasses: the first numClassesToMove theory sessions of the
source day, in stored order, are relocated one by one. -/
def redistributeClasses (g : Grid) (fromDay : String) (numClassesToMove : Nat) : Grid :=
  let classesToMove :=
    ((getDay g fromDay).filter (fun cls => cls.type == "theory")).take numClassesToMove
  rcGo fromDay ((gridKeys g).filter (fun d => d ≠ fromDay)) classesToMove g

/-- The trigger loop of balanceDailyWorkload over the workload snapshot.
The JavaScript float tests count > avg + 1 and Math.floor(count - avg)
with avg = total / n are computed exactly in scaled integers: the
comparison is count * n > total + n and the floor is (count * n - total)
divided by n (the involved quantities are small integers, where the float
arithmetic is exact up to the sixth-fractions that separate the compared
values, so the scaled forms agree with the source). -/
def bdwGo (total n : Nat) : List (String × Nat) → Grid → Grid
  | [], g => g
  | (day, count) :: rest, g =>
    if total + n < count * n then
      bdwGo total n rest (redistributeClasses g day ((count * n - total) / n))
    else bdwGo total n rest g

/-- balanceDailyWorkload. -/
def balanceDailyWorkload (g : Grid) (_constraints : Constraints) : Grid :=
  let workload := dayWorkloads g
  let total := (workload.map Prod.snd).sum
  bdwGo total workload.length workload g

/-- optimizeTimetable: deep copy (identity on these values, object
identity being carried by the id fields), then the three repair passes. -/
def optimizeTimetable (timetable : Grid) (constraints : Constraints) : Grid :=
  let optimized := timetable
  let o1 := resolveTeacherConflicts optimized
  let o2 := resolveRoomConflicts o1
  balanceDailyWorkload o2 constraints

/-- Per-session step of detectConflicts: sessions with truthy teacher and
room push one conflict message per repeated teacher key and one per
repeated room key. -/
def dcSession (day : String) (tSeen rSeen conflicts : List String) (cls : Session) :
    List String × List String × List String :=
  if jsTruthy cls.teacher && jsTruthy cls.room then
    (if tSeen.contains (day ++ "_" ++ cls.time ++ "_" ++ cls.teacher.getD "") then tSeen
      else (day ++ "_" ++ cls.time ++ "_" ++ cls.teacher.getD "") :: tSeen,
     if rSeen.contains (day ++ "_" ++ cls.time ++ "_" ++ cls.room.getD "") then rSeen
      else (day ++ "_" ++ cls.time ++ "_" ++ cls.room.getD "") :: rSeen,
     (if rSeen.contains (day ++ "_" ++ cls.time ++ "_" ++ cls.room.getD "") then
        (if tSeen.contains (day ++ "_" ++ cls.time ++ "_" ++ cls.teacher.getD "") then
          conflicts ++ ["Teacher " ++ cls.teacher.getD "" ++ " double booked on " ++ day ++
            " at " ++ cls.time]
         else conflicts) ++
          ["Room " ++ cls.room.getD "" ++ " double booked on " ++ day ++ " at " ++ cls.time]
      else
        (if tSeen.contains (day ++ "_" ++ cls.time ++ "_" ++ cls.teacher.getD "") then
          conflicts ++ ["Teacher " ++ cls.teacher.getD "" ++ " double booked on " ++ day ++
            " at " ++ cls.time]
         else conflicts)))
  else (tSeen, rSeen, conflicts)

/-- Fold of detectConflicts over one day. -/
def dcDay (day : String) : List Session → List String → List String → List String →
    List String × List String × List String
  | [], t, r, c => (t, r, c)
  | cls :: rest, t, r, c =>
    let s := dcSession day t r c cls
    dcDay day rest s.1 s.2.1 s.2.2

/-- Day-order traversal of detectConflicts. -/
def dcGo : Grid → List String → List String → List String → List String
  | [], _, _, c => c
  | (day, l) :: rest, t, r, c =>
    let s := dcDay day l t r c
    dcGo rest s.1 s.2.1 s.2.2

/-- detectConflicts. -/
def detectConflicts (g : Grid) : List String := dcGo g [] [] []

/-- Per-day theory-or-lab counts used by calculateBalanceScore. -/
def dailyTLCounts (g : Grid) : List Nat :=
  g.map (fun e => (e.2.filter (fun cls => cls.type == "theory" || cls.type == "lab")).length)

/-- Math.max over a nonempty list of naturals (the grids built by the
generator always have their six day entries). -/
def listMax : List Nat → Nat
  | [] => 0
  | h :: t => t.foldl Nat.max h

/-- Math.min over a nonempty list of naturals. -/
def listMin : List Nat → Nat
  | [] => 0
  | h :: t => t.foldl Nat.min h

/-- calculateBalanceScore: -5 per unit of max-min daily spread. -/
def calculateBalanceScore (g : Grid) : Int :=
  let dayCounts := dailyTLCounts g
  ((listMax dayCounts : Int) - (listMin dayCounts : Int)) * (-5)

/-- calculateTimetableScore: 100, minus 10 per detected conflict, plus the
balance score, clamped below at 0. -/
def calculateTimetableScore (g : Grid) : Int :=
  let score : Int := 100
  let score := score - (detectConflicts g).length * 10
  let score := score + calculateBalanceScore g
  max 0 score

/-- generateTimetable: merge constraints, build the empty grid, place
theory then lab courses, inject breaks and lunch, run the optimizer, and
return the grid spread together with sectionId and the merged constraints.
No unplaced-course report and no score are part of the returned value. -/
def generateTimetable (sectionData : SectionData) (constraints : ConstraintOverrides) (r : Rng) :
    Except String (GeneratedTimetable × Rng) :=
  let finalConstraints := mergeConstraints defaultConstraints constraints
  let timetable := initTimetable
  let theoryCourses := sectionData.courses.filter (fun c => c.type == "theory")
  let labCourses := sectionData.courses.filter (fun c => c.type == "lab")
  match scheduleTheoryCourses timetable theoryCourses sectionData.faculties sectionData.rooms
      sectionData.timeslots finalConstraints 0 r with
  | .error e => .error e
  | .ok (t1, n1, r1) =>
    match scheduleLabCourses t1 labCourses sectionData.faculties sectionData.rooms
        sectionData.timeslots finalConstraints n1 r1 with
    | .error e => .error e
    | .ok (t2, n2, r2) =>
      let t3 := (addBreaksAndLunch t2 sectionData.timeslots n2).1
      let optimized := optimizeTimetable t3 finalConstraints
      .ok ({ timetable := optimized
             sectionId := sectionData.department ++ "-" ++ sectionData.semester ++ "-" ++
               sectionData.sectionName
             constraints := finalConstraints }, r2)

/-! ### Grid primitive lemmas -/

/-- Identifier list of the grid sessions. -/
def idsOf (g : Grid) : List Nat := (allSessions g).map Session.id

/-- All session object identities in the grid are distinct. -/
def idsNodup (g : Grid) : Prop := (idsOf g).Nodup

/-- Number of lab-typed sessions carrying a given code. -/
def labCodeCount (g : Grid) (s : String) : Nat :=
  ((allSessions g).filter (fun c => c.code == some s && c.type == "lab")).length

theorem gridKeys_setDay (g : Grid) (d : String) (l : List Session) :
    gridKeys (setDay g d l) = gridKeys g := by
  induction g with
  | nil => rfl
  | cons e rest ih =>
    obtain ⟨k, v⟩ := e
    by_cases h : k = d
    · subst h
      simp [setDay, gridKeys]
    · simp [setDay, h, gridKeys]
      simpa [gridKeys] using ih

theorem lookupDay_setDay_self {g : Grid} {d : String} (l : List Session)
    (h : d ∈ gridKeys g) : lookupDay (setDay g d l) d = some l := by
  induction g with
  | nil => simp [gridKeys] at h
  | cons e rest ih =>
    obtain ⟨k, v⟩ := e
    by_cases hk : k = d
    · simp [setDay, hk, lookupDay]
    · have hd : d ∈ gridKeys rest := by
        simp [gridKeys] at h ⊢
        rcases h with h | h
        · exact absurd h.symm hk
        · exact h
      simp [setDay, hk, lookupDay, ih hd]

theorem lookupDay_setDay_ne {g : Grid} {d d' : String} (l : List Session)
    (h : d' ≠ d) : lookupDay (setDay g d l) d' = lookupDay g d' := by
  induction g with
  | nil => rfl
  | cons e rest ih =>
    obtain ⟨k, v⟩ := e
    by_cases hk : k = d
    · subst hk
      simp [setDay, lookupDay, Ne.symm h]
    · simp [setDay, hk, lookupDay]
      by_cases hk' : k = d' <;> simp [hk', ih]

theorem getDay_setDay_self {g : Grid} {d : String} (l : List Session)
    (h : d ∈ gridKeys g) : getDay (setDay g d l) d = l := by
  simp [getDay, lookupDay_setDay_self l h]

theorem getDay_setDay_ne {g : Grid} {d d' : String} (l : List Session)
    (h : d' ≠ d) : getDay (setDay g d l) d' = getDay g d' := by
  simp [getDay, lookupDay_setDay_ne l h]

theorem gridKeys_cons (k : String) (v : List Session) (rest : Grid) :
    gridKeys ((k, v) :: rest) = k :: gridKeys rest := rfl

theorem lookupDay_none_of_not_mem {g : Grid} {d : String} (h : d ∉ gridKeys g) :
    lookupDay g d = none := by
  induction g with
  | nil => rfl
  | cons e rest ih =>
    obtain ⟨k, v⟩ := e
    rw [gridKeys_cons, List.mem_cons] at h
    push_neg at h
    simp [lookupDay, Ne.symm h.1, ih h.2]

theorem mem_gridKeys_of_lookupDay {g : Grid} {d : String} {l : List Session}
    (h : lookupDay g d = some l) : d ∈ gridKeys g := by
  by_contra hc
  rw [lookupDay_none_of_not_mem hc] at h
  cases h

theorem lookupDay_mem {g : Grid} {d : String} {l : List Session}
    (h : lookupDay g d = some l) : (d, l) ∈ g := by
  induction g with
  | nil => cases h
  | cons e rest ih =>
    obtain ⟨k, v⟩ := e
    by_cases hk : k = d
    · subst hk
      simp [lookupDay] at h
      simp [h]
    · simp [lookupDay, hk] at h
      exact List.mem_cons_of_mem _ (ih h)

theorem getDay_eq_nil_of_not_mem {g : Grid} {d : String} (h : d ∉ gridKeys g) :
    getDay g d = [] := by
  simp [getDay, lookupDay_none_of_not_mem h]

theorem perm_swap_ends {α : Type} (x y z : List α) :
    List.Perm ((x ++ y) ++ z) ((z ++ y) ++ x) := by
  refine List.perm_append_comm.trans ?_
  refine (List.Perm.append_left z List.perm_append_comm).trans ?_
  rw [List.append_assoc]

/-- Replacing the bucket of a present day key exchanges exactly that
bucket inside the flattened session list. -/
theorem allSessions_setDay_perm {g : Grid} {d : String} (l : List Session)
    (h : d ∈ gridKeys g) :
    List.Perm (allSessions (setDay g d l) ++ getDay g d) (allSessions g ++ l) := by
  induction g with
  | nil => simp [gridKeys] at h
  | cons e rest ih =>
    obtain ⟨k, v⟩ := e
    by_cases hk : k = d
    · subst hk
      simp only [setDay, if_pos rfl, allSessions, getDay, lookupDay, List.map_cons,
        List.flatten_cons, Option.getD_some]
      exact perm_swap_ends l ((rest.map Prod.snd).flatten) v
    · have hd : d ∈ gridKeys rest := by
        simp [gridKeys] at h
        rcases h with h | h
        · exact absurd h.symm hk
        · simpa [gridKeys] using h
      have ihh := ih hd
      simp only [setDay, if_neg hk, allSessions, getDay, lookupDay, if_neg hk, List.map_cons,
        List.flatten_cons] at ihh ⊢
      rw [List.append_assoc, List.append_assoc]
      exact List.Perm.append_left v ihh

theorem allSessions_pushDay_perm {g : Grid} {d : String} (s : Session)
    (h : d ∈ gridKeys g) :
    List.Perm (allSessions (pushDay g d s)) (allSessions g ++ [s]) := by
  have h1 := allSessions_setDay_perm (g := g) (d := d) (getDay g d ++ [s]) h
  have h2 : List.Perm (allSessions g ++ (getDay g d ++ [s]))
      ((allSessions g ++ [s]) ++ getDay g d) := by
    rw [List.append_assoc]
    refine List.Perm.append_left (allSessions g) ?_
    exact List.perm_append_comm
  have := h1.trans h2
  exact (List.perm_append_right_iff (getDay g d)).mp this

theorem lookupDay_exists_of_mem {g : Grid} {d : String} (h : d ∈ gridKeys g) :
    ∃ l, lookupDay g d = some l := by
  induction g with
  | nil => simp [gridKeys] at h
  | cons e rest ih =>
    obtain ⟨k, v⟩ := e
    by_cases hk : k = d
    · exact ⟨v, by simp [lookupDay, hk]⟩
    · have hd : d ∈ gridKeys rest := by
        simp [gridKeys] at h
        rcases h with h | h
        · exact absurd h.symm hk
        · simpa [gridKeys] using h
      rcases ih hd with ⟨l, hl⟩
      exact ⟨l, by simp [lookupDay, hk, hl]⟩

/-- A day bucket is a sublist of the flattened session list, hence its
identifiers inherit distinctness from the whole grid. -/
theorem getDay_sublist (g : Grid) (d : String) :
    (getDay g d).Sublist (allSessions g) := by
  cases hl : lookupDay g d with
  | none => simp [getDay, hl]
  | some l =>
    have hmem : (d, l) ∈ g := lookupDay_mem hl
    have : l ∈ g.map Prod.snd := List.mem_map.mpr ⟨(d, l), hmem, rfl⟩
    have hsub : l.Sublist (allSessions g) := (List.infix_of_mem_flatten this).sublist
    simpa [getDay, hl] using hsub

theorem getDay_ids_nodup {g : Grid} (hn : idsNodup g) (d : String) :
    ((getDay g d).map Session.id).Nodup :=
  ((getDay_sublist g d).map Session.id).nodup hn

/-- Removing one identified object from a list with distinct identifiers:
the original list is a permutation of the object together with the
filtered remainder. -/
theorem perm_cons_filter_of_mem {A : List Session} {cls : Session}
    (hin : cls ∈ A) (hnd : (A.map Session.id).Nodup) :
    List.Perm A (cls :: A.filter (fun c => c.id != cls.id)) := by
  induction A with
  | nil => cases hin
  | cons x xs ih =>
    simp only [List.map_cons, List.nodup_cons] at hnd
    rcases List.mem_cons.mp hin with rfl | hx
    · have hxs : xs.filter (fun c => c.id != cls.id) = xs := by
        refine List.filter_eq_self.mpr ?_
        intro c hc
        have hcid : c.id ∈ xs.map Session.id := List.mem_map.mpr ⟨c, hc, rfl⟩
        simp only [bne_iff_ne, ne_eq]
        intro he
        exact hnd.1 (he ▸ hcid)
      rw [List.filter_cons]
      simp only [bne_self_eq_false, Bool.false_eq_true, if_false, hxs]
      exact List.Perm.refl _
    · have hne : (x.id != cls.id) = true := by
        have hcid : cls.id ∈ xs.map Session.id := List.mem_map.mpr ⟨cls, hx, rfl⟩
        simp only [bne_iff_ne, ne_eq]
        intro he
        exact hnd.1 (he ▸ hcid)
      have ihh := ih hx hnd.2
      rw [List.filter_cons, if_pos hne]
      exact (List.Perm.cons x ihh).trans (List.Perm.swap cls x _)

/-! ### Relocation preservation lemmas -/

theorem mem_gridKeys_of_getDay_mem {g : Grid} {d : String} {cls : Session}
    (h : cls ∈ getDay g d) : d ∈ gridKeys g := by
  by_contra hc
  rw [getDay_eq_nil_of_not_mem hc] at h
  cases h

theorem transferClass_keys (g : Grid) (d t : String) (cls : Session) :
    gridKeys (transferClass g d t cls) = gridKeys g := by
  simp [transferClass, pushDay, gridKeys_setDay]

theorem transferClass_getDay_src {g : Grid} {d t : String} (cls : Session)
    (hne : d ≠ t) (hd : d ∈ gridKeys g) :
    getDay (transferClass g d t cls) d = (getDay g d).filter (fun c => c.id != cls.id) := by
  have h1 : getDay (pushDay g t cls) d = getDay g d := getDay_setDay_ne _ hne
  have hd1 : d ∈ gridKeys (pushDay g t cls) := by
    simpa [pushDay, gridKeys_setDay] using hd
  simp [transferClass, getDay_setDay_self _ hd1, h1]

theorem transferClass_perm {g : Grid} {d t : String} {cls : Session}
    (ht : t ∈ gridKeys g) (hne : d ≠ t)
    (hin : cls ∈ getDay g d) (hnd : idsNodup g) :
    List.Perm (allSessions (transferClass g d t cls)) (allSessions g) := by
  have hd : d ∈ gridKeys g := mem_gridKeys_of_getDay_mem hin
  have hpush : List.Perm (allSessions (pushDay g t cls)) (allSessions g ++ [cls]) :=
    allSessions_pushDay_perm cls ht
  have hd1 : d ∈ gridKeys (pushDay g t cls) := by
    simpa [pushDay, gridKeys_setDay] using hd
  have hbucket : getDay (pushDay g t cls) d = getDay g d := getDay_setDay_ne _ hne
  have hset := allSessions_setDay_perm
    (g := pushDay g t cls) (d := d)
    ((getDay (pushDay g t cls) d).filter (fun c => c.id != cls.id)) hd1
  rw [hbucket] at hset
  have hA : List.Perm (getDay g d) (cls :: (getDay g d).filter (fun c => c.id != cls.id)) :=
    perm_cons_filter_of_mem hin (getDay_ids_nodup hnd d)
  have hT : transferClass g d t cls
      = setDay (pushDay g t cls) d
          ((getDay (pushDay g t cls) d).filter (fun c => c.id != cls.id)) := rfl
  have hchain : List.Perm (allSessions (transferClass g d t cls) ++ getDay g d)
      (allSessions g ++ getDay g d) := by
    rw [hT, hbucket]
    refine hset.trans ?_
    refine (List.Perm.append_right _ hpush).trans ?_
    rw [List.append_assoc]
    refine List.Perm.append_left (allSessions g) ?_
    exact hA.symm
  exact (List.perm_append_right_iff (getDay g d)).mp hchain

theorem idsNodup_of_perm {g g' : Grid}
    (hp : List.Perm (allSessions g') (allSessions g)) (hnd : idsNodup g) : idsNodup g' :=
  ((hp.map Session.id).nodup_iff).mpr hnd

theorem moveGo_spec (day : String) (cls : Session) :
    ∀ (days : List String) (g : Grid),
    (∀ d ∈ days, d ∈ gridKeys g ∧ d ≠ day) →
    cls ∈ getDay g day → idsNodup g →
    List.Perm (allSessions (moveGo day cls days g)) (allSessions g) ∧
    gridKeys (moveGo day cls days g) = gridKeys g ∧
    (getDay (moveGo day cls days g) day = getDay g day ∨
     getDay (moveGo day cls days g) day = (getDay g day).filter (fun c => c.id != cls.id)) := by
  intro days
  induction days with
  | nil =>
    intro g _ _ _
    exact ⟨List.Perm.refl _, rfl, Or.inl rfl⟩
  | cons d rest ih =>
    intro g hdays hin hnd
    rw [moveGo]
    by_cases hc : ((getDay g d).any
        (fun c => c.time == cls.time && c.teacher == cls.teacher)) = true
    · rw [if_pos hc]
      exact ih g (fun x hx => hdays x (List.mem_cons_of_mem d hx)) hin hnd
    · rw [if_neg hc]
      have hd := hdays d (List.mem_cons_self d rest)
      have hnet : day ≠ d := fun he => hd.2 he.symm
      refine ⟨transferClass_perm hd.1 hnet hin hnd, transferClass_keys _ _ _ _, Or.inr ?_⟩
      exact transferClass_getDay_src cls hnet (mem_gridKeys_of_getDay_mem hin)

theorem moveClassToResolveConflict_spec {g : Grid} {day : String} {cls : Session}
    (hin : cls ∈ getDay g day) (hnd : idsNodup g) :
    List.Perm (allSessions (moveClassToResolveConflict g day cls)) (allSessions g) ∧
    gridKeys (moveClassToResolveConflict g day cls) = gridKeys g ∧
    (getDay (moveClassToResolveConflict g day cls) day = getDay g day ∨
     getDay (moveClassToResolveConflict g day cls) day =
       (getDay g day).filter (fun c => c.id != cls.id)) := by
  refine moveGo_spec day cls _ g ?_ hin hnd
  intro d hdm
  have := List.mem_filter.mp hdm
  refine ⟨this.1, ?_⟩
  simpa using this.2

theorem rtcSession_fst (day : String) (g : Grid) (seen : List String) (cls : Session) :
    (rtcSession day g seen cls).1 = g ∨
    (rtcSession day g seen cls).1 = moveClassToResolveConflict g day cls := by
  unfold rtcSession
  by_cases h1 : (jsTruthy cls.teacher && !cls.isBreak && !cls.isLunch) = true
  · rw [if_pos h1]
    by_cases h2 : seen.contains (day ++ "_" ++ cls.time ++ "_" ++ cls.teacher.getD "") = true
    · rw [if_pos h2]
      exact Or.inr rfl
    · rw [if_neg h2]
      exact Or.inl rfl
  · rw [if_neg h1]
    exact Or.inl rfl

theorem rtcDay_spec (day : String) :
    ∀ (L : List Session) (g : Grid) (seen : List String),
    (∀ c ∈ L, c ∈ getDay g day) → (L.map Session.id).Nodup → idsNodup g →
    List.Perm (allSessions (rtcDay day L g seen).1) (allSessions g) ∧
    gridKeys (rtcDay day L g seen).1 = gridKeys g := by
  intro L
  induction L with
  | nil =>
    intro g seen _ _ _
    exact ⟨List.Perm.refl _, rfl⟩
  | cons cls rest ih =>
    intro g seen hmem hLnd hnd
    simp only [List.map_cons, List.nodup_cons] at hLnd
    have hred : rtcDay day (cls :: rest) g seen
        = rtcDay day rest (rtcSession day g seen cls).1 (rtcSession day g seen cls).2 := rfl
    rw [hred]
    have hcls : cls ∈ getDay g day := hmem cls (List.mem_cons_self cls rest)
    rcases rtcSession_fst day g seen cls with hgg | hgg
    · rw [hgg]
      exact ih g _ (fun c hc => hmem c (List.mem_cons_of_mem cls hc)) hLnd.2 hnd
    · rw [hgg]
      obtain ⟨hperm, hkeys, hbucket⟩ := moveClassToResolveConflict_spec hcls hnd
      have hnd1 : idsNodup (moveClassToResolveConflict g day cls) := idsNodup_of_perm hperm hnd
      have hmem1 : ∀ c ∈ rest, c ∈ getDay (moveClassToResolveConflict g day cls) day := by
        intro c hc
        rcases hbucket with hb | hb
        · rw [hb]
          exact hmem c (List.mem_cons_of_mem cls hc)
        · rw [hb]
          refine List.mem_filter.mpr ⟨hmem c (List.mem_cons_of_mem cls hc), ?_⟩
          have hcid : c.id ∈ rest.map Session.id := List.mem_map.mpr ⟨c, hc, rfl⟩
          simp only [bne_iff_ne, ne_eq]
          intro he
          exact hLnd.1 (he ▸ hcid)
      obtain ⟨p2, k2⟩ := ih (moveClassToResolveConflict g day cls) _ hmem1 hLnd.2 hnd1
      exact ⟨p2.trans hperm, k2.trans hkeys⟩

theorem rtcGo_spec : ∀ (days : List String) (g : Grid) (seen : List String),
    idsNodup g →
    List.Perm (allSessions (rtcGo days g seen)) (allSessions g) ∧
    gridKeys (rtcGo days g seen) = gridKeys g := by
  intro days
  induction days with
  | nil =>
    intro g seen _
    exact ⟨List.Perm.refl _, rfl⟩
  | cons day rest ih =>
    intro g seen hnd
    have hred : rtcGo (day :: rest) g seen
        = rtcGo rest (rtcDay day (getDay g day) g seen).1
            (rtcDay day (getDay g day) g seen).2 := rfl
    rw [hred]
    obtain ⟨hperm, hkeys⟩ := rtcDay_spec day (getDay g day) g seen (fun c hc => hc)
      (getDay_ids_nodup hnd day) hnd
    have hnd1 := idsNodup_of_perm hperm hnd
    obtain ⟨p2, k2⟩ := ih _ _ hnd1
    exact ⟨p2.trans hperm, k2.trans hkeys⟩

theorem resolveTeacherConflicts_spec {g : Grid} (hnd : idsNodup g) :
    List.Perm (allSessions (resolveTeacherConflicts g)) (allSessions g) ∧
    gridKeys (resolveTeacherConflicts g) = gridKeys g :=
  rtcGo_spec (gridKeys g) g [] hnd

/-! ### Room-conflict pass preservation -/

theorem allSessions_cons (d : String) (l : List Session) (rest : Grid) :
    allSessions ((d, l) :: rest) = l ++ allSessions rest := rfl

theorem rrcSession_fst (day : String) (seen : List String) (cls : Session) :
    (rrcSession day seen cls).1 = cls ∨
    (rrcSession day seen cls).1 =
      { cls with room := some (findAlternativeRoom (cls.room.getD "")) } := by
  unfold rrcSession
  by_cases h1 : (jsTruthy cls.room && !cls.isBreak && !cls.isLunch) = true
  · rw [if_pos h1]
    by_cases h2 : seen.contains (day ++ "_" ++ cls.time ++ "_" ++ cls.room.getD "") = true
    · rw [if_pos h2]
      exact Or.inr rfl
    · rw [if_neg h2]
      exact Or.inl rfl
  · rw [if_neg h1]
    exact Or.inl rfl

theorem rrcDay_spec (day : String) (p : Session → Bool)
    (hp : ∀ c r, p { c with room := r } = p c) :
    ∀ (L : List Session) (seen : List String),
    List.countP p (rrcDay day L seen).1 = List.countP p L ∧
    ((rrcDay day L seen).1.map Session.id) = L.map Session.id := by
  intro L
  induction L with
  | nil =>
    intro seen
    exact ⟨rfl, rfl⟩
  | cons cls rest ih =>
    intro seen
    have hred : (rrcDay day (cls :: rest) seen).1
        = (rrcSession day seen cls).1 ::
            (rrcDay day rest (rrcSession day seen cls).2).1 := rfl
    rw [hred]
    have hcls : p (rrcSession day seen cls).1 = p cls ∧
        (rrcSession day seen cls).1.id = cls.id := by
      rcases rrcSession_fst day seen cls with hgg | hgg
      · rw [hgg]
        exact ⟨rfl, rfl⟩
      · rw [hgg]
        exact ⟨hp cls _, rfl⟩
    obtain ⟨c2, i2⟩ := ih (rrcSession day seen cls).2
    constructor
    · simp only [List.countP_cons, hcls.1, c2]
    · simp only [List.map_cons, hcls.2, i2]

theorem rrcGo_spec (p : Session → Bool) (hp : ∀ c r, p { c with room := r } = p c) :
    ∀ (g : Grid) (seen : List String),
    List.countP p (allSessions (rrcGo g seen)) = List.countP p (allSessions g) ∧
    (allSessions (rrcGo g seen)).map Session.id = (allSessions g).map Session.id ∧
    gridKeys (rrcGo g seen) = gridKeys g := by
  intro g
  induction g with
  | nil =>
    intro seen
    exact ⟨rfl, rfl, rfl⟩
  | cons e rest ih =>
    intro seen
    obtain ⟨day, l⟩ := e
    have hred : rrcGo ((day, l) :: rest) seen
        = (day, (rrcDay day l seen).1) :: rrcGo rest (rrcDay day l seen).2 := rfl
    rw [hred]
    obtain ⟨c1, i1⟩ := rrcDay_spec day p hp l seen
    obtain ⟨c2, i2, k2⟩ := ih (rrcDay day l seen).2
    refine ⟨?_, ?_, ?_⟩
    · rw [allSessions_cons, allSessions_cons, List.countP_append, List.countP_append, c1, c2]
    · rw [allSessions_cons, allSessions_cons, List.map_append, List.map_append, i1, i2]
    · rw [gridKeys_cons, gridKeys_cons, k2]

theorem resolveRoomConflicts_spec (p : Session → Bool)
    (hp : ∀ c r, p { c with room := r } = p c) (g : Grid) :
    List.countP p (allSessions (resolveRoomConflicts g)) = List.countP p (allSessions g) ∧
    (allSessions (resolveRoomConflicts g)).map Session.id = (allSessions g).map Session.id ∧
    gridKeys (resolveRoomConflicts g) = gridKeys g :=
  rrcGo_spec p hp g []

/-! ### Workload balancing preservation -/

theorem rcGo_spec (fromDay : String) (otherDays : List String) :
    ∀ (toMove : List Session) (g : Grid),
    (∀ d ∈ otherDays, d ∈ gridKeys g ∧ d ≠ fromDay) →
    (∀ c ∈ toMove, c ∈ getDay g fromDay) → (toMove.map Session.id).Nodup → idsNodup g →
    List.Perm (allSessions (rcGo fromDay otherDays toMove g)) (allSessions g) ∧
    gridKeys (rcGo fromDay otherDays toMove g) = gridKeys g := by
  intro toMove
  induction toMove with
  | nil =>
    intro g _ _ _ _
    exact ⟨List.Perm.refl _, rfl⟩
  | cons cls rest ih =>
    intro g hothers hmem hLnd hnd
    simp only [List.map_cons, List.nodup_cons] at hLnd
    have hcls : cls ∈ getDay g fromDay := hmem cls (List.mem_cons_self cls rest)
    have htarget : ∀ t, rcTarget fromDay otherDays g = some t → t ∈ otherDays := by
      intro t hmatch
      unfold rcTarget at hmatch
      cases hf : otherDays.find?
          (fun day => (getDay g day).length < (getDay g fromDay).length) with
      | some d =>
        rw [hf] at hmatch
        have hmatch2 : (if d = "" then otherDays[0]? else some d) = some t := hmatch
        by_cases hde : d = ""
        · rw [if_pos hde] at hmatch2
          exact List.getElem?_mem hmatch2
        · rw [if_neg hde] at hmatch2
          cases hmatch2
          exact List.mem_of_find?_eq_some hf
      | none =>
        rw [hf] at hmatch
        have hmatch2 : otherDays[0]? = some t := hmatch
        exact List.getElem?_mem hmatch2
    cases hmatch : rcTarget fromDay otherDays g with
    | none =>
      have hred : rcGo fromDay otherDays (cls :: rest) g = rcGo fromDay otherDays rest g := by
        rw [rcGo, hmatch]
      rw [hred]
      exact ih g hothers (fun c hc => hmem c (List.mem_cons_of_mem cls hc)) hLnd.2 hnd
    | some t =>
      have hred : rcGo fromDay otherDays (cls :: rest) g =
          (if t = "" then rcGo fromDay otherDays rest g
           else rcGo fromDay otherDays rest (transferClass g fromDay t cls)) := by
        rw [rcGo, hmatch]
      rw [hred]
      by_cases hte : t = ""
      · rw [if_pos hte]
        exact ih g hothers (fun c hc => hmem c (List.mem_cons_of_mem cls hc)) hLnd.2 hnd
      · rw [if_neg hte]
        have htmem := hothers t (htarget t hmatch)
        have hnet : fromDay ≠ t := fun he => htmem.2 he.symm
        have hperm := transferClass_perm htmem.1 hnet hcls hnd
        have hkeys := transferClass_keys g fromDay t cls
        have hnd1 := idsNodup_of_perm hperm hnd
        have hmem1 : ∀ c ∈ rest, c ∈ getDay (transferClass g fromDay t cls) fromDay := by
          intro c hc
          rw [transferClass_getDay_src cls hnet (mem_gridKeys_of_getDay_mem hcls)]
          refine List.mem_filter.mpr ⟨hmem c (List.mem_cons_of_mem cls hc), ?_⟩
          have hcid : c.id ∈ rest.map Session.id := List.mem_map.mpr ⟨c, hc, rfl⟩
          simp only [bne_iff_ne, ne_eq]
          intro he
          exact hLnd.1 (he ▸ hcid)
        have hothers1 : ∀ d ∈ otherDays, d ∈ gridKeys (transferClass g fromDay t cls) ∧
            d ≠ fromDay := by
          intro d hd
          rw [hkeys]
          exact hothers d hd
        obtain ⟨p2, k2⟩ := ih (transferClass g fromDay t cls) hothers1 hmem1 hLnd.2 hnd1
        exact ⟨p2.trans hperm, k2.trans hkeys⟩

theorem redistributeClasses_spec {g : Grid} (fromDay : String) (n : Nat)
    (hnd : idsNodup g) :
    List.Perm (allSessions (redistributeClasses g fromDay n)) (allSessions g) ∧
    gridKeys (redistributeClasses g fromDay n) = gridKeys g := by
  rw [redistributeClasses]
  have hsub : (((getDay g fromDay).filter (fun cls => cls.type == "theory")).take n).Sublist
      (getDay g fromDay) :=
    (List.take_sublist n _).trans (List.filter_sublist _)
  refine rcGo_spec fromDay _ _ g ?_ ?_ ?_ hnd
  · intro d hd
    have := List.mem_filter.mp hd
    refine ⟨this.1, ?_⟩
    simpa using this.2
  · intro c hc
    exact hsub.subset hc
  · exact (hsub.map Session.id).nodup (getDay_ids_nodup hnd fromDay)

theorem bdwGo_spec (total n : Nat) :
    ∀ (wl : List (String × Nat)) (g : Grid), idsNodup g →
    List.Perm (allSessions (bdwGo total n wl g)) (allSessions g) ∧
    gridKeys (bdwGo total n wl g) = gridKeys g := by
  intro wl
  induction wl with
  | nil =>
    intro g _
    exact ⟨List.Perm.refl _, rfl⟩
  | cons e rest ih =>
    intro g hnd
    obtain ⟨day, count⟩ := e
    rw [bdwGo]
    by_cases hc : total + n < count * n
    · rw [if_pos hc]
      obtain ⟨p1, k1⟩ := redistributeClasses_spec (g := g) day ((count * n - total) / n) hnd
      obtain ⟨p2, k2⟩ := ih _ (idsNodup_of_perm p1 hnd)
      exact ⟨p2.trans p1, k2.trans k1⟩
    · rw [if_neg hc]
      exact ih g hnd

theorem balanceDailyWorkload_spec {g : Grid} (k : Constraints) (hnd : idsNodup g) :
    List.Perm (allSessions (balanceDailyWorkload g k)) (allSessions g) ∧
    gridKeys (balanceDailyWorkload g k) = gridKeys g :=
  bdwGo_spec _ _ (dayWorkloads g) g hnd

/-! ### Construction-stage lemmas -/

/-- Identifier bookkeeping: distinct identities, all below the counter. -/
def IdsOk (g : Grid) (n : Nat) : Prop :=
  idsNodup g ∧ ∀ c ∈ allSessions g, c.id < n

theorem weekday_getD_mem (i : Nat) : weekdays.getD (i % 5) "" ∈ weekdays := by
  have h5 : i % 5 = 0 ∨ i % 5 = 1 ∨ i % 5 = 2 ∨ i % 5 = 3 ∨ i % 5 = 4 := by omega
  rcases h5 with h | h | h | h | h
  all_goals rw [h]
  all_goals decide

theorem getRandomDay_fst_mem (r : Rng) : (getRandomDay r).1 ∈ weekdays := by
  have h : (getRandomDay r).1 = weekdays.getD (r 0 % 5) "" := rfl
  rw [h]
  exact weekday_getD_mem (r 0)

theorem setDay_cons_self (d : String) (v l : List Session) (rest : Grid) :
    setDay ((d, v) :: rest) d l = (d, l) :: rest := by
  simp [setDay]

theorem setDay_cons_ne {k d : String} (v l : List Session) (rest : Grid) (h : k ≠ d) :
    setDay ((k, v) :: rest) d l = (k, v) :: setDay rest d l := by
  simp [setDay, h]

theorem mem_setDay {g : Grid} {d : String} {l : List Session} {e : String × List Session}
    (h : e ∈ setDay g d l) : e = (d, l) ∨ e ∈ g := by
  induction g with
  | nil => cases h
  | cons x rest ih =>
    obtain ⟨k, v⟩ := x
    by_cases hk : k = d
    · subst hk
      rw [setDay_cons_self] at h
      rcases List.mem_cons.mp h with h1 | h1
      · exact Or.inl h1
      · exact Or.inr (List.mem_cons_of_mem _ h1)
    · rw [setDay_cons_ne _ _ _ hk] at h
      rcases List.mem_cons.mp h with h1 | h1
      · exact Or.inr (h1 ▸ List.mem_cons_self _ _)
      · rcases ih h1 with h2 | h2
        · exact Or.inl h2
        · exact Or.inr (List.mem_cons_of_mem _ h2)

theorem idsOk_push {g : Grid} {day : String} {sess : Session} {n : Nat}
    (hday : day ∈ gridKeys g) (hid : sess.id = n) (h : IdsOk g n) :
    IdsOk (pushDay g day sess) (n + 1) := by
  have hperm := allSessions_pushDay_perm sess hday
  constructor
  · unfold idsNodup idsOf
    rw [((hperm.map Session.id).nodup_iff)]
    rw [List.map_append, List.nodup_append]
    refine ⟨h.1, by simp, ?_⟩
    intro a ha hb
    simp only [List.map_cons, List.map_nil, List.mem_singleton] at hb
    rcases List.mem_map.mp ha with ⟨c, hc, hcid⟩
    have := h.2 c hc
    omega
  · intro c hc
    rcases List.mem_append.mp (hperm.mem_iff.mp hc) with hc | hc
    · have := h.2 c hc
      omega
    · simp only [List.mem_singleton] at hc
      subst hc
      omega

theorem labCodeCount_push {g : Grid} {day : String} {sess : Session}
    (hday : day ∈ gridKeys g) (s : String) :
    labCodeCount (pushDay g day sess) s
      = labCodeCount g s +
        (if (sess.code == some s && sess.type == "lab") = true then 1 else 0) := by
  unfold labCodeCount
  rw [← List.countP_eq_length_filter, ← List.countP_eq_length_filter]
  rw [(allSessions_pushDay_perm sess hday).countP_eq]
  rw [List.countP_append]
  simp [List.countP_cons]

theorem canScheduleCourse_true {g : Grid} {day : String} {slot : Option Slot} {course : Course}
    {f : List Faculty} {rooms : List Room} {k : Constraints} {r r' : Rng}
    (h : canScheduleCourse g day slot course f rooms k r = .ok (true, r')) :
    ∃ ds, lookupDay g day = some ds ∧ ds.length < k.MAX_CLASSES_PER_DAY := by
  unfold canScheduleCourse at h
  split at h
  · cases h
  · rename_i ds hds
    refine ⟨ds, hds, ?_⟩
    split at h
    · cases h
    · rename_i tc htc
      split at h
      · simp at h
      · split at h
        rename_i pr room r1 heq
        split at h
        · cases h
        · rename_i rc hrc
          split at h
          · simp at h
          · split at h
            · simp at h
            · rename_i hlen
              omega

theorem canScheduleLab_true {g : Grid} {day : String} {slot : Option Slot} {course : Course}
    {f : List Faculty} {rooms : List Room} {k : Constraints} {r r' : Rng}
    (h : canScheduleLab g day slot course f rooms k r = .ok (true, r')) :
    (∃ ds, lookupDay g day = some ds) ∧
    (∀ l ∈ g.map Prod.snd, ∀ sc ∈ l, ¬((sc.code == some (course.code ++ "L")) = true)) := by
  unfold canScheduleLab at h
  split at h
  · cases h
  · rename_i ds hds
    refine ⟨⟨ds, hds⟩, ?_⟩
    split at h
    rename_i pr room r1 heq
    simp only [] at h
    split_ifs at h with hc1 hc2 hc3
    · simp at h
    · simp at h
    · simp at h
    · intro l hl sc hsc hcode
      have hl2 : l ∈ canScheduleLab.g_values g := hl
      exact hc3 (List.any_eq_true.mpr ⟨l, hl2, List.any_eq_true.mpr ⟨sc, hsc, hcode⟩⟩)

theorem labCodeCount_eq_zero {g : Grid} {code : String}
    (h : ∀ l ∈ g.map Prod.snd, ∀ sc ∈ l, ¬((sc.code == some code) = true)) :
    labCodeCount g code = 0 := by
  unfold labCodeCount
  rw [← List.countP_eq_length_filter]
  rw [List.countP_eq_zero]
  intro c hc
  rcases List.mem_flatten.mp hc with ⟨l, hl, hcl⟩
  intro hcontra
  have := h l hl c hcl
  simp only [Bool.and_eq_true] at hcontra
  exact this hcontra.1

theorem pushDay_stage_facts {g : Grid} {day : String} (sess : Session)
    (hday : day ∈ gridKeys g) :
    gridKeys (pushDay g day sess) = gridKeys g ∧
    (∀ d, d ≠ day → lookupDay (pushDay g day sess) d = lookupDay g d) ∧
    (∀ c ∈ allSessions (pushDay g day sess), c ∈ allSessions g ∨ c = sess) := by
  refine ⟨by simp [pushDay, gridKeys_setDay], ?_, ?_⟩
  · intro d hd
    exact lookupDay_setDay_ne _ hd
  · intro c hc
    have hperm := allSessions_pushDay_perm sess hday
    rcases List.mem_append.mp (hperm.mem_iff.mp hc) with hc | hc
    · exact Or.inl hc
    · simp only [List.mem_singleton] at hc
      exact Or.inr hc

theorem theoryAttemptLoop_spec (slots : List Slot) (course : Course) (f : List Faculty)
    (rooms : List Room) (k : Constraints) :
    ∀ (fuel : Nat) (g : Grid) (n : Nat) (r : Rng) (g' : Grid) (n' : Nat) (r' : Rng),
    theoryAttemptLoop g slots course f rooms k n fuel r = .ok (g', n', r') →
    gridKeys g' = gridKeys g ∧
    n ≤ n' ∧
    (∀ d, d ∉ weekdays → lookupDay g' d = lookupDay g d) ∧
    (∀ s, labCodeCount g' s = labCodeCount g s) ∧
    (∀ c ∈ allSessions g', c ∈ allSessions g ∨ c.type = "theory") ∧
    (IdsOk g n → IdsOk g' n') ∧
    ((∀ e ∈ g, (e.2 : List Session).length ≤ k.MAX_CLASSES_PER_DAY) →
      ∀ e ∈ g', e.2.length ≤ k.MAX_CLASSES_PER_DAY) := by
  intro fuel
  induction fuel with
  | zero =>
    intro g n r g' n' r' h
    unfold theoryAttemptLoop at h
    injection h with h1
    injection h1 with hg h2
    injection h2 with hn hr
    subst hg
    subst hn
    exact ⟨rfl, Nat.le_refl n, fun d _ => rfl, fun s => rfl,
      fun c hc => Or.inl hc, fun hi => hi, fun hb => hb⟩
  | succ fuel ih =>
    intro g n r g' n' r' h
    unfold theoryAttemptLoop at h
    split at h
    rename_i day r1 hgrd
    split at h
    rename_i i r2 hrb
    simp only [] at h
    cases hcan : canScheduleCourse g day slots[i]? course f rooms k r2 with
    | error e =>
      rw [hcan] at h
      have h2 : (Except.error e : Except String (Grid × Nat × Rng)) = .ok (g', n', r') := h
      cases h2
    | ok p =>
      obtain ⟨okFlag, r3⟩ := p
      rw [hcan] at h
      cases okFlag with
      | false =>
        have h2 : theoryAttemptLoop g slots course f rooms k n fuel r3 = .ok (g', n', r') := h
        exact ih g n r3 g' n' r' h2
      | true =>
        cases hslot : slots[i]? with
        | none =>
          rw [hslot] at h
          have h2 : (Except.error "TypeError" : Except String (Grid × Nat × Rng))
              = .ok (g', n', r') := h
          cases h2
        | some s =>
          rw [hslot] at h
          cases hlk : lookupDay g day with
          | none =>
            rw [hlk] at h
            have h2 : (Except.error "TypeError" : Except String (Grid × Nat × Rng))
                = .ok (g', n', r') := h
            cases h2
          | some ds2 =>
            rw [hlk] at h
            have h2 : (Except.ok (pushDay g day
                { id := n, time := slotTimeStr s, course := course.name,
                  code := some course.code, teacher := some course.teacherId,
                  room := some (findSuitableRoom rooms course r3).1, type := "theory",
                  credits := some course.credits, duration := none,
                  isBreak := false, isLunch := false }, n + 1,
                (findSuitableRoom rooms course r3).2) : Except String (Grid × Nat × Rng))
                = .ok (g', n', r') := h
            injection h2 with h3
            injection h3 with hg h4
            injection h4 with hn hr
            subst hg
            subst hn
            rcases canScheduleCourse_true hcan with ⟨ds, hds, hlen⟩
            have hdaymem : day ∈ gridKeys g := mem_gridKeys_of_lookupDay hds
            have hdaywk : day ∈ weekdays := by
              have := getRandomDay_fst_mem r
              rw [hgrd] at this
              exact this
            set sess : Session :=
              { id := n, time := slotTimeStr s, course := course.name,
                code := some course.code, teacher := some course.teacherId,
                room := some (findSuitableRoom rooms course r3).1, type := "theory",
                credits := some course.credits, duration := none,
                isBreak := false, isLunch := false } with hsess
            obtain ⟨hkeys, hother, hmem⟩ := pushDay_stage_facts sess hdaymem
            refine ⟨hkeys, Nat.le_succ n, ?_, ?_, ?_, ?_, ?_⟩
            · intro d hd
              refine hother d ?_
              intro he
              exact hd (he ▸ hdaywk)
            · intro s2
              rw [labCodeCount_push hdaymem s2]
              have hcond : (sess.code == some s2 && sess.type == "lab") = false := by
                simp [hsess]
              rw [hcond]
              simp
            · intro c hc
              rcases hmem c hc with hc | hc
              · exact Or.inl hc
              · exact Or.inr (by rw [hc])
            · intro hids
              exact idsOk_push hdaymem rfl hids
            · intro hb e he
              rcases mem_setDay he with he | he
              · rw [he]
                simp only []
                have hgd : getDay g day = ds := by simp [getDay, hds]
                rw [hgd]
                simp only [List.length_append, List.length_singleton]
                omega
              · exact hb e he

theorem randBelow_weekday_getD_mem (r : Rng) :
    weekdays.getD ((randBelow weekdays.length r).1) "" ∈ weekdays := by
  show weekdays.getD (r 0 % 5) "" ∈ weekdays
  exact weekday_getD_mem (r 0)

theorem labAttemptLoop_spec (slots : List Slot) (course : Course) (f : List Faculty)
    (rooms : List Room) (k : Constraints) :
    ∀ (fuel : Nat) (g : Grid) (n : Nat) (r : Rng) (g' : Grid) (n' : Nat) (r' : Rng),
    labAttemptLoop g slots course f rooms k n fuel r = .ok (g', n', r') →
    gridKeys g' = gridKeys g ∧
    n ≤ n' ∧
    (∀ d, d ∉ weekdays → lookupDay g' d = lookupDay g d) ∧
    ((∀ s, labCodeCount g s ≤ 1) → ∀ s, labCodeCount g' s ≤ 1) ∧
    (∀ c ∈ allSessions g', c ∈ allSessions g ∨ (c.type = "lab" ∧ c.duration = some 2)) ∧
    (IdsOk g n → IdsOk g' n') := by
  intro fuel
  induction fuel with
  | zero =>
    intro g n r g' n' r' h
    unfold labAttemptLoop at h
    injection h with h1
    injection h1 with hg h2
    injection h2 with hn hr
    subst hg
    subst hn
    exact ⟨rfl, Nat.le_refl n, fun d _ => rfl, fun hs => hs,
      fun c hc => Or.inl hc, fun hi => hi⟩
  | succ fuel ih =>
    intro g n r g' n' r' h
    unfold labAttemptLoop at h
    split at h
    rename_i di r1 hrb
    simp only [] at h
    cases hcan : canScheduleLab g (weekdays.getD di "") slots[(randBelow slots.length r1).1]?
        course f rooms k (randBelow slots.length r1).2 with
    | error e =>
      rw [hcan] at h
      have h2 : (Except.error e : Except String (Grid × Nat × Rng)) = .ok (g', n', r') := h
      cases h2
    | ok p =>
      obtain ⟨okFlag, r3⟩ := p
      rw [hcan] at h
      cases okFlag with
      | false =>
        have h2 : labAttemptLoop g slots course f rooms k n fuel r3 = .ok (g', n', r') := h
        exact ih g n r3 g' n' r' h2
      | true =>
        cases hslot : slots[(randBelow slots.length r1).1]? with
        | none =>
          rw [hslot] at h
          have h2 : (Except.error "TypeError" : Except String (Grid × Nat × Rng))
              = .ok (g', n', r') := h
          cases h2
        | some s =>
          rw [hslot] at h
          cases hlk : lookupDay g (weekdays.getD di "") with
          | none =>
            rw [hlk] at h
            have h2 : (Except.error "TypeError" : Except String (Grid × Nat × Rng))
                = .ok (g', n', r') := h
            cases h2
          | some ds2 =>
            rw [hlk] at h
            have h2 : (Except.ok (pushDay g (weekdays.getD di "")
                { id := n, time := slotTimeStr s, course := course.name ++ " Lab",
                  code := some (course.code ++ "L"), teacher := some course.teacherId,
                  room := some (findLabRoom rooms course r3).1, type := "lab",
                  credits := some (jsOrNat course.labCredits 1), duration := some 2,
                  isBreak := false, isLunch := false }, n + 1,
                (findLabRoom rooms course r3).2) : Except String (Grid × Nat × Rng))
                = .ok (g', n', r') := h
            injection h2 with h3
            injection h3 with hg h4
            injection h4 with hn hr
            subst hg
            subst hn
            obtain ⟨⟨ds, hds⟩, hnolab⟩ := canScheduleLab_true hcan
            have hdaymem : weekdays.getD di "" ∈ gridKeys g := mem_gridKeys_of_lookupDay hds
            have hdaywk : weekdays.getD di "" ∈ weekdays := by
              have hdi : di = (randBelow weekdays.length r).1 := by rw [hrb]
              rw [hdi]
              exact randBelow_weekday_getD_mem r
            set sess : Session :=
              { id := n, time := slotTimeStr s, course := course.name ++ " Lab",
                code := some (course.code ++ "L"), teacher := some course.teacherId,
                room := some (findLabRoom rooms course r3).1, type := "lab",
                credits := some (jsOrNat course.labCredits 1), duration := some 2,
                isBreak := false, isLunch := false } with hsess
            obtain ⟨hkeys, hother, hmem⟩ := pushDay_stage_facts sess hdaymem
            refine ⟨hkeys, Nat.le_succ n, ?_, ?_, ?_, ?_⟩
            · intro d hd
              refine hother d ?_
              intro he
              exact hd (he ▸ hdaywk)
            · intro hle s2
              rw [labCodeCount_push hdaymem s2]
              by_cases hs2 : (course.code ++ "L") = s2
              · have hzero : labCodeCount g s2 = 0 := by
                  rw [← hs2]
                  exact labCodeCount_eq_zero hnolab
                rw [hzero]
                split
                · omega
                · omega
              · have hcond : (sess.code == some s2 && sess.type == "lab") = false := by
                  simp [hsess, hs2]
                rw [hcond]
                simpa using hle s2
            · intro c hc
              rcases hmem c hc with hc | hc
              · exact Or.inl hc
              · refine Or.inr ?_
                rw [hc]
                exact ⟨rfl, rfl⟩
            · intro hids
              exact idsOk_push hdaymem rfl hids

theorem scheduleTheoryGo_spec (f : List Faculty) (rooms : List Room) (tts : List Slot)
    (k : Constraints) :
    ∀ (courses : List Course) (g : Grid) (n : Nat) (r : Rng) (g' : Grid) (n' : Nat) (r' : Rng),
    scheduleTheoryGo f rooms tts k courses g n r = .ok (g', n', r') →
    gridKeys g' = gridKeys g ∧
    n ≤ n' ∧
    (∀ d, d ∉ weekdays → lookupDay g' d = lookupDay g d) ∧
    (∀ s, labCodeCount g' s = labCodeCount g s) ∧
    (∀ c ∈ allSessions g', c ∈ allSessions g ∨ c.type = "theory") ∧
    (IdsOk g n → IdsOk g' n') ∧
    ((∀ e ∈ g, (e.2 : List Session).length ≤ k.MAX_CLASSES_PER_DAY) →
      ∀ e ∈ g', e.2.length ≤ k.MAX_CLASSES_PER_DAY) := by
  intro courses
  induction courses with
  | nil =>
    intro g n r g' n' r' h
    unfold scheduleTheoryGo at h
    injection h with h1
    injection h1 with hg h2
    injection h2 with hn hr
    subst hg
    subst hn
    exact ⟨rfl, Nat.le_refl n, fun d _ => rfl, fun s => rfl,
      fun c hc => Or.inl hc, fun hi => hi, fun hb => hb⟩
  | cons course rest ih =>
    intro g n r g' n' r' h
    unfold scheduleTheoryGo at h
    cases hloop : theoryAttemptLoop g (tts.filter (fun slot => slot.type == "theory")) course
        f rooms k n 100 r with
    | error e =>
      rw [hloop] at h
      have h2 : (Except.error e : Except String (Grid × Nat × Rng)) = .ok (g', n', r') := h
      cases h2
    | ok p =>
      obtain ⟨g1, n1, r1⟩ := p
      rw [hloop] at h
      have h2 : scheduleTheoryGo f rooms tts k rest g1 n1 r1 = .ok (g', n', r') := h
      obtain ⟨k1, le1, sat1, lab1, mem1, ids1, bd1⟩ :=
        theoryAttemptLoop_spec (tts.filter (fun slot => slot.type == "theory")) course f rooms k
          100 g n r g1 n1 r1 hloop
      obtain ⟨k2, le2, sat2, lab2, mem2, ids2, bd2⟩ := ih g1 n1 r1 g' n' r' h2
      refine ⟨k2.trans k1, Nat.le_trans le1 le2, ?_, ?_, ?_, ?_, ?_⟩
      · intro d hd
        exact (sat2 d hd).trans (sat1 d hd)
      · intro s
        exact (lab2 s).trans (lab1 s)
      · intro c hc
        rcases mem2 c hc with hc | hc
        · exact mem1 c hc
        · exact Or.inr hc
      · intro hi
        exact ids2 (ids1 hi)
      · intro hb
        exact bd2 (bd1 hb)

theorem scheduleLabGo_spec (f : List Faculty) (rooms : List Room) (tts : List Slot)
    (k : Constraints) :
    ∀ (courses : List Course) (g : Grid) (n : Nat) (r : Rng) (g' : Grid) (n' : Nat) (r' : Rng),
    scheduleLabGo f rooms tts k courses g n r = .ok (g', n', r') →
    gridKeys g' = gridKeys g ∧
    n ≤ n' ∧
    (∀ d, d ∉ weekdays → lookupDay g' d = lookupDay g d) ∧
    ((∀ s, labCodeCount g s ≤ 1) → ∀ s, labCodeCount g' s ≤ 1) ∧
    (∀ c ∈ allSessions g', c ∈ allSessions g ∨ (c.type = "lab" ∧ c.duration = some 2)) ∧
    (IdsOk g n → IdsOk g' n') := by
  intro courses
  induction courses with
  | nil =>
    intro g n r g' n' r' h
    unfold scheduleLabGo at h
    injection h with h1
    injection h1 with hg h2
    injection h2 with hn hr
    subst hg
    subst hn
    exact ⟨rfl, Nat.le_refl n, fun d _ => rfl, fun hs => hs, fun c hc => Or.inl hc, fun hi => hi⟩
  | cons course rest ih =>
    intro g n r g' n' r' h
    unfold scheduleLabGo at h
    cases hloop : labAttemptLoop g (tts.filter (fun slot => slot.type == "lab")) course
        f rooms k n 50 r with
    | error e =>
      rw [hloop] at h
      have h2 : (Except.error e : Except String (Grid × Nat × Rng)) = .ok (g', n', r') := h
      cases h2
    | ok p =>
      obtain ⟨g1, n1, r1⟩ := p
      rw [hloop] at h
      have h2 : scheduleLabGo f rooms tts k rest g1 n1 r1 = .ok (g', n', r') := h
      obtain ⟨k1, le1, sat1, lab1, mem1, ids1⟩ :=
        labAttemptLoop_spec (tts.filter (fun slot => slot.type == "lab")) course f rooms k
          50 g n r g1 n1 r1 hloop
      obtain ⟨k2, le2, sat2, lab2, mem2, ids2⟩ := ih g1 n1 r1 g' n' r' h2
      refine ⟨k2.trans k1, Nat.le_trans le1 le2, ?_, ?_, ?_, ?_⟩
      · intro d hd
        exact (sat2 d hd).trans (sat1 d hd)
      · intro hle
        exact lab2 (lab1 hle)
      · intro c hc
        rcases mem2 c hc with hc | hc
        · exact mem1 c hc
        · exact Or.inr hc
      · intro hi
        exact ids2 (ids1 hi)

/-! ### Break and lunch stage lemmas -/

theorem insertSorted_perm {α : Type} (le : α → α → Bool) (x : α) (l : List α) :
    List.Perm (insertSorted le x l) (x :: l) := by
  induction l with
  | nil => exact List.Perm.refl _
  | cons y ys ih =>
    unfold insertSorted
    by_cases h : le y x = true
    · rw [if_pos h]
      exact (List.Perm.cons y ih).trans (List.Perm.swap x y ys)
    · rw [if_neg h]

theorem jsSortBy_perm_aux {α : Type} (le : α → α → Bool) :
    ∀ (l acc : List α),
    List.Perm (l.foldl (fun a x => insertSorted le x a) acc) (acc ++ l) := by
  intro l
  induction l with
  | nil =>
    intro acc
    simp
  | cons x xs ih =>
    intro acc
    have h1 := ih (insertSorted le x acc)
    refine h1.trans ?_
    have h2 : List.Perm (insertSorted le x acc ++ xs) ((x :: acc) ++ xs) :=
      List.Perm.append_right xs (insertSorted_perm le x acc)
    refine h2.trans ?_
    exact List.perm_middle.symm

theorem jsSortBy_perm {α : Type} (le : α → α → Bool) (l : List α) :
    List.Perm (jsSortBy le l) l := by
  have := jsSortBy_perm_aux le l []
  simpa [jsSortBy] using this

theorem sortDaySchedule_perm (l : List Session) :
    List.Perm (sortDaySchedule l) l :=
  jsSortBy_perm _ l

/-- Shape facts about the break-insertion loop: the counter grows, every
output element is an input element or a fresh break marker in the counter
interval, counts of marker-rejecting predicates are preserved, and
distinct identifiers stay distinct. -/
theorem insertBreaksAux_spec (m : Int) :
    ∀ (l : List Session) (n : Nat),
    n ≤ (insertBreaksAux m l n).2 ∧
    (∀ c ∈ (insertBreaksAux m l n).1,
      (c ∈ l ∧ c.id ∈ l.map Session.id) ∨
      (c.type = "break" ∧ n ≤ c.id ∧ c.id < (insertBreaksAux m l n).2)) ∧
    (∀ p : Session → Bool, (∀ kk tt, p (breakSession kk tt) = false) →
      List.countP p (insertBreaksAux m l n).1 = List.countP p l) ∧
    ((∀ c ∈ l, c.id < n) → (l.map Session.id).Nodup →
      ((insertBreaksAux m l n).1.map Session.id).Nodup)
  | [], n => by
    refine ⟨Nat.le_refl n, ?_, ?_, ?_⟩
    · intro c hc
      cases hc
    · intro p _
      rfl
    · intro _ _
      simp [insertBreaksAux]
  | [a], n => by
    refine ⟨Nat.le_refl n, ?_, ?_, ?_⟩
    · intro c hc
      have : c = a := by simpa [insertBreaksAux] using hc
      subst this
      exact Or.inl ⟨List.mem_singleton_self c, by simp⟩
    · intro p _
      rfl
    · intro _ hnd
      simp only [insertBreaksAux]
      exact hnd
  | a :: b :: rest, n => by
    have IHpos := insertBreaksAux_spec m (b :: rest) (n + 1)
    have IHneg := insertBreaksAux_spec m (b :: rest) n
    have hsplit : insertBreaksAux m (a :: b :: rest) n
        = if m < getTimeDifference (splitPart a.time '-' 1) (splitPart b.time '-' 0) then
            (a :: breakSession n (splitPart a.time '-' 1 ++ "-" ++ splitPart b.time '-' 0)
              :: (insertBreaksAux m (b :: rest) (n + 1)).1,
             (insertBreaksAux m (b :: rest) (n + 1)).2)
          else (a :: (insertBreaksAux m (b :: rest) n).1,
                (insertBreaksAux m (b :: rest) n).2) := rfl
    by_cases hc : m < getTimeDifference (splitPart a.time '-' 1) (splitPart b.time '-' 0)
    · have hred1 : (insertBreaksAux m (a :: b :: rest) n).1
          = a :: breakSession n
              (splitPart a.time '-' 1 ++ "-" ++ splitPart b.time '-' 0)
              :: (insertBreaksAux m (b :: rest) (n + 1)).1 := by
        rw [hsplit, if_pos hc]
      have hred2 : (insertBreaksAux m (a :: b :: rest) n).2
          = (insertBreaksAux m (b :: rest) (n + 1)).2 := by
        rw [hsplit, if_pos hc]
      obtain ⟨ihle, ihmem, ihcnt, ihnd⟩ := IHpos
      refine ⟨?_, ?_, ?_, ?_⟩
      · rw [hred2]
        omega
      · intro c hcc
        rw [hred1] at hcc
        rw [hred2]
        rcases List.mem_cons.mp hcc with rfl | hcc
        · exact Or.inl ⟨List.mem_cons_self _ _, by simp⟩
        rcases List.mem_cons.mp hcc with rfl | hcc
        · refine Or.inr ⟨rfl, Nat.le_refl _, ?_⟩
          have : n + 1 ≤ (insertBreaksAux m (b :: rest) (n + 1)).2 := ihle
          simpa [breakSession] using this
        · rcases ihmem c hcc with ⟨hmem, hid⟩ | ⟨hb, hle, hlt⟩
          · refine Or.inl ⟨List.mem_cons_of_mem _ hmem, ?_⟩
            simp only [List.map_cons, List.mem_cons]
            right
            simpa using hid
          · exact Or.inr ⟨hb, by omega, hlt⟩
      · intro p hp
        rw [hred1]
        simp only [List.countP_cons, hp, ihcnt p hp]
        simp [List.countP_cons]
      · intro hbd hnd
        rw [hred1]
        rw [List.map_cons, List.nodup_cons, List.map_cons, List.nodup_cons]
        rw [List.map_cons, List.nodup_cons] at hnd
        have hbrest_bd : ∀ c ∈ b :: rest, c.id < n + 1 := by
          intro c hcb
          have := hbd c (List.mem_cons_of_mem a hcb)
          omega
        have htail := ihnd hbrest_bd hnd.2
        have htail_char := ihmem
        have hna : a.id < n := hbd a (List.mem_cons_self _ _)
        refine ⟨?_, ?_, htail⟩
        · simp only [List.mem_cons]
          push_neg
          refine ⟨?_, ?_⟩
          · show a.id ≠ n
            omega
          · intro hmm
            rcases List.mem_map.mp hmm with ⟨c, hcmem, hcid⟩
            rcases htail_char c hcmem with ⟨_, hid⟩ | ⟨_, hle, _⟩
            · exact hnd.1 (by rw [← hcid]; exact hid)
            · omega
        · intro hmm
          rcases List.mem_map.mp hmm with ⟨c, hcmem, hcid⟩
          have hcidn : c.id = n := hcid
          rcases htail_char c hcmem with ⟨hcb, hid⟩ | ⟨_, hle, _⟩
          · have hcn : c.id < n := by
              rcases List.mem_cons.mp hcb with rfl | hcb2
              · exact hbd c (List.mem_cons_of_mem a (List.mem_cons_self _ _))
              · exact hbd c (List.mem_cons_of_mem a (List.mem_cons_of_mem b hcb2))
            omega
          · omega
    ·
      have hred1 : (insertBreaksAux m (a :: b :: rest) n).1
          = a :: (insertBreaksAux m (b :: rest) n).1 := by
        rw [hsplit, if_neg hc]
      have hred2 : (insertBreaksAux m (a :: b :: rest) n).2
          = (insertBreaksAux m (b :: rest) n).2 := by
        rw [hsplit, if_neg hc]
      obtain ⟨ihle, ihmem, ihcnt, ihnd⟩ := IHneg
      refine ⟨?_, ?_, ?_, ?_⟩
      · rw [hred2]
        omega
      · intro c hcc
        rw [hred1] at hcc
        rw [hred2]
        rcases List.mem_cons.mp hcc with rfl | hcc
        · exact Or.inl ⟨List.mem_cons_self _ _, by simp⟩
        · rcases ihmem c hcc with ⟨hmem, hid⟩ | ⟨hb, hle, hlt⟩
          · refine Or.inl ⟨List.mem_cons_of_mem _ hmem, ?_⟩
            simp only [List.map_cons, List.mem_cons]
            right
            simpa using hid
          · exact Or.inr ⟨hb, hle, hlt⟩
      · intro p hp
        rw [hred1]
        simp only [List.countP_cons, ihcnt p hp]
      · intro hbd hnd
        rw [hred1]
        rw [List.map_cons, List.nodup_cons]
        rw [List.map_cons, List.nodup_cons] at hnd
        have hbrest_bd : ∀ c ∈ b :: rest, c.id < n := fun c hcb =>
          hbd c (List.mem_cons_of_mem a hcb)
        refine ⟨?_, ihnd hbrest_bd hnd.2⟩
        intro hmm
        rcases List.mem_map.mp hmm with ⟨c, hcmem, hcid⟩
        rcases ihmem c hcmem with ⟨_, hid⟩ | ⟨_, hle, _⟩
        · exact hnd.1 (by rw [← hcid]; exact hid)
        · have hna : a.id < n := hbd a (List.mem_cons_self _ _)
          omega

theorem addLunch_spec (l : List Session) (n : Nat) :
    n ≤ (addLunch l n).2 ∧
    (∀ c ∈ (addLunch l n).1,
      (c ∈ l ∧ c.id ∈ l.map Session.id) ∨
      (c.type = "lunch" ∧ n ≤ c.id ∧ c.id < (addLunch l n).2)) ∧
    (∀ p : Session → Bool, (∀ kk, p (lunchSession kk) = false) →
      List.countP p (addLunch l n).1 = List.countP p l) ∧
    ((∀ c ∈ l, c.id < n) → (l.map Session.id).Nodup →
      ((addLunch l n).1.map Session.id).Nodup) := by
  unfold addLunch
  by_cases hhas : (l.any (fun cls =>
      cls.time == "12:00-1:00" ||
        (jsLe (splitPart cls.time '-' 0) "12:00" &&
          jsLe "1:00" (splitPart cls.time '-' 1)))) = true
  · rw [if_pos hhas]
    refine ⟨Nat.le_refl n, ?_, ?_, ?_⟩
    · intro c hc
      exact Or.inl ⟨hc, List.mem_map.mpr ⟨c, hc, rfl⟩⟩
    · intro p _
      rfl
    · intro _ hnd
      exact hnd
  · rw [if_neg hhas]
    cases hidx : l.findIdx? (fun cls => jsLe "12:00" (splitPart cls.time '-' 1)) with
    | none =>
      refine ⟨Nat.le_refl n, ?_, ?_, ?_⟩
      · intro c hc
        exact Or.inl ⟨hc, List.mem_map.mpr ⟨c, hc, rfl⟩⟩
      · intro p _
        rfl
      · intro _ hnd
        exact hnd
    | some i =>
      have hsplitl : l.take (i + 1) ++ l.drop (i + 1) = l := List.take_append_drop _ _
      refine ⟨Nat.le_succ n, ?_, ?_, ?_⟩
      · intro c hc
        simp only [List.mem_append, List.mem_cons] at hc
        rcases hc with hc | hc | hc
        · have hcl : c ∈ l := hsplitl ▸ List.mem_append.mpr (Or.inl hc)
          exact Or.inl ⟨hcl, List.mem_map.mpr ⟨c, hcl, rfl⟩⟩
        · subst hc
          exact Or.inr ⟨rfl, Nat.le_refl n, Nat.lt_succ_self n⟩
        · have hcl : c ∈ l := hsplitl ▸ List.mem_append.mpr (Or.inr hc)
          exact Or.inl ⟨hcl, List.mem_map.mpr ⟨c, hcl, rfl⟩⟩
      · intro p hp
        rw [List.countP_append, List.countP_cons]
        have : List.countP p (l.take (i + 1)) + List.countP p (l.drop (i + 1))
            = List.countP p l := by
          rw [← List.countP_append, hsplitl]
        simp [hp n]
        omega
      · intro hbd hnd
        have hperm : List.Perm
            ((l.take (i + 1) ++ lunchSession n :: l.drop (i + 1)).map Session.id)
            ((lunchSession n).id :: (l.take (i + 1) ++ l.drop (i + 1)).map Session.id) := by
          rw [List.map_append, List.map_cons, List.map_append]
          exact List.perm_middle
        rw [hperm.nodup_iff]
        rw [hsplitl]
        rw [List.nodup_cons]
        refine ⟨?_, hnd⟩
        intro hmm
        rcases List.mem_map.mp hmm with ⟨c, hcmem, hcid⟩
        have hcidn : c.id = n := hcid
        have := hbd c hcmem
        omega

theorem addBreaksDay_spec (l : List Session) (n : Nat) :
    n ≤ (addBreaksDay l n).2 ∧
    (∀ c ∈ (addBreaksDay l n).1,
      (c ∈ l ∧ c.id ∈ l.map Session.id) ∨
      ((c.type = "break" ∨ c.type = "lunch") ∧ n ≤ c.id ∧ c.id < (addBreaksDay l n).2)) ∧
    (∀ p : Session → Bool, (∀ kk tt, p (breakSession kk tt) = false) →
      (∀ kk, p (lunchSession kk) = false) →
      List.countP p (addBreaksDay l n).1 = List.countP p l) ∧
    ((∀ c ∈ l, c.id < n) → (l.map Session.id).Nodup →
      ((addBreaksDay l n).1.map Session.id).Nodup) := by
  have hred : addBreaksDay l n
      = addLunch (insertBreaksAux defaultConstraints.MIN_BREAK_BETWEEN_CLASSES
          (sortDaySchedule l) n).1
        (insertBreaksAux defaultConstraints.MIN_BREAK_BETWEEN_CLASSES
          (sortDaySchedule l) n).2 := rfl
  set m := defaultConstraints.MIN_BREAK_BETWEEN_CLASSES
  set ls := sortDaySchedule l with hls
  have hsp : List.Perm ls l := sortDaySchedule_perm l
  obtain ⟨ble, bmem, bcnt, bnd⟩ := insertBreaksAux_spec m ls n
  obtain ⟨lle, lmem, lcnt, lnd⟩ := addLunch_spec (insertBreaksAux m ls n).1
    (insertBreaksAux m ls n).2
  rw [hred]
  refine ⟨Nat.le_trans ble lle, ?_, ?_, ?_⟩
  · intro c hc
    rcases lmem c hc with ⟨hmem, hid⟩ | ⟨hl, hle2, hlt⟩
    · rcases bmem c hmem with ⟨hmem2, hid2⟩ | ⟨hb, hle2, hlt⟩
      · refine Or.inl ⟨hsp.mem_iff.mp hmem2, ?_⟩
        exact (hsp.map Session.id).mem_iff.mp hid2
      · refine Or.inr ⟨Or.inl hb, hle2, ?_⟩
        exact Nat.lt_of_lt_of_le hlt lle
    · exact Or.inr ⟨Or.inr hl, Nat.le_trans ble hle2, hlt⟩
  · intro p hpb hpl
    rw [lcnt p hpl, bcnt p hpb]
    exact hsp.countP_eq p
  · intro hbd hnd
    have hbd2 : ∀ c ∈ ls, c.id < n := fun c hc => hbd c (hsp.mem_iff.mp hc)
    have hnd2 : (ls.map Session.id).Nodup := ((hsp.map Session.id).nodup_iff).mpr hnd
    have hout := bnd hbd2 hnd2
    have hbdout : ∀ c ∈ (insertBreaksAux m ls n).1, c.id < (insertBreaksAux m ls n).2 := by
      intro c hc
      rcases bmem c hc with ⟨_, hid⟩ | ⟨_, _, hlt⟩
      · rcases List.mem_map.mp hid with ⟨c2, hc2, hcid⟩
        have := hbd2 c2 hc2
        omega
      · exact hlt
    exact lnd hbdout hout

theorem abGo_spec : ∀ (g : Grid) (n : Nat),
    n ≤ (abGo g n).2 ∧
    gridKeys (abGo g n).1 = gridKeys g ∧
    (∀ p : Session → Bool, (∀ kk tt, p (breakSession kk tt) = false) →
      (∀ kk, p (lunchSession kk) = false) →
      List.countP p (allSessions (abGo g n).1) = List.countP p (allSessions g)) ∧
    (∀ c ∈ allSessions (abGo g n).1,
      (c ∈ allSessions g ∧ c.id ∈ (allSessions g).map Session.id) ∨
      ((c.type = "break" ∨ c.type = "lunch") ∧ n ≤ c.id ∧ c.id < (abGo g n).2)) ∧
    ((∀ c ∈ allSessions g, c.id < n) → idsNodup g →
      idsNodup (abGo g n).1 ∧ ∀ c ∈ allSessions (abGo g n).1, c.id < (abGo g n).2)
  | [], n => by
    refine ⟨Nat.le_refl n, rfl, fun p _ _ => rfl, ?_, ?_⟩
    · intro c hc
      cases hc
    · intro _ hnd
      exact ⟨hnd, fun c hc => by cases hc⟩
  | (day, l) :: rest, n => by
    have hred : abGo ((day, l) :: rest) n
        = ((day, (addBreaksDay l n).1) :: (abGo rest (addBreaksDay l n).2).1,
           (abGo rest (addBreaksDay l n).2).2) := rfl
    obtain ⟨dle, dmem, dcnt, dnd⟩ := addBreaksDay_spec l n
    obtain ⟨rle, rkeys, rcnt, rmem, rnd⟩ := abGo_spec rest (addBreaksDay l n).2
    rw [hred]
    refine ⟨?_, ?_, ?_, ?_, ?_⟩
    · simp only []
      omega
    · simp only [gridKeys_cons]
      rw [rkeys]
    · intro p hpb hpl
      rw [allSessions_cons, allSessions_cons, List.countP_append, List.countP_append]
      rw [dcnt p hpb hpl, rcnt p hpb hpl]
    · intro c hc
      rw [allSessions_cons] at hc
      rw [allSessions_cons]
      rcases List.mem_append.mp hc with hc | hc
      · rcases dmem c hc with ⟨hmem, hid⟩ | ⟨ht, hle2, hlt⟩
        · refine Or.inl ⟨List.mem_append.mpr (Or.inl hmem), ?_⟩
          rw [List.map_append]
          exact List.mem_append.mpr (Or.inl hid)
        · refine Or.inr ⟨ht, hle2, ?_⟩
          simp only []
          omega
      · rcases rmem c hc with ⟨hmem, hid⟩ | ⟨ht, hle2, hlt⟩
        · refine Or.inl ⟨List.mem_append.mpr (Or.inr hmem), ?_⟩
          rw [List.map_append]
          exact List.mem_append.mpr (Or.inr hid)
        · exact Or.inr ⟨ht, Nat.le_trans dle hle2, hlt⟩
    · intro hbd hnd
      unfold idsNodup idsOf at hnd
      rw [allSessions_cons, List.map_append, List.nodup_append] at hnd
      obtain ⟨hndl, hndr, hdisj⟩ := hnd
      have hbdl : ∀ c ∈ l, c.id < n := fun c hc =>
        hbd c (by rw [allSessions_cons]; exact List.mem_append.mpr (Or.inl hc))
      have hbdr : ∀ c ∈ allSessions rest, c.id < n := fun c hc =>
        hbd c (by rw [allSessions_cons]; exact List.mem_append.mpr (Or.inr hc))
      have hbdr2 : ∀ c ∈ allSessions rest, c.id < (addBreaksDay l n).2 := by
        intro c hc
        have := hbdr c hc
        omega
      obtain ⟨rnodup, rbound⟩ := rnd hbdr2 hndr
      have hdayout := dnd hbdl hndl
      have hdaybound : ∀ c ∈ (addBreaksDay l n).1, c.id < (addBreaksDay l n).2 := by
        intro c hc
        rcases dmem c hc with ⟨_, hid⟩ | ⟨_, _, hlt⟩
        · rcases List.mem_map.mp hid with ⟨c2, hc2, hcid⟩
          have := hbdl c2 hc2
          omega
        · exact hlt
      constructor
      · unfold idsNodup idsOf
        rw [allSessions_cons, List.map_append, List.nodup_append]
        refine ⟨hdayout, rnodup, ?_⟩
        intro x hx hy
        rcases List.mem_map.mp hx with ⟨c, hcmem, hcid⟩
        rcases List.mem_map.mp hy with ⟨c2, hc2mem, hc2id⟩
        rcases dmem c hcmem with ⟨_, hid⟩ | ⟨_, hle2, hlt⟩
        · rcases rmem c2 hc2mem with ⟨_, hid2⟩ | ⟨_, hle3, _⟩
          · exact hdisj (hcid ▸ hid) (hc2id ▸ hid2)
          · rcases List.mem_map.mp hid with ⟨c3, hc3, hc3id⟩
            have := hbdl c3 hc3
            omega
        · rcases rmem c2 hc2mem with ⟨_, hid2⟩ | ⟨_, hle3, _⟩
          · rcases List.mem_map.mp hid2 with ⟨c3, hc3, hc3id⟩
            have := hbdr c3 hc3
            omega
          · omega
      · intro c hc
        rw [allSessions_cons] at hc
        rcases List.mem_append.mp hc with hc | hc
        · have := hdaybound c hc
          simp only []
          omega
        · have := rbound c hc
          simp only []
          omega

theorem addBreaksAndLunch_spec (g : Grid) (ts : List Slot) (n : Nat)
    (hbd : ∀ c ∈ allSessions g, c.id < n) (hnd : idsNodup g) :
    gridKeys (addBreaksAndLunch g ts n).1 = gridKeys g ∧
    (∀ s, labCodeCount (addBreaksAndLunch g ts n).1 s = labCodeCount g s) ∧
    (∀ c ∈ allSessions (addBreaksAndLunch g ts n).1,
      c ∈ allSessions g ∨ c.type = "break" ∨ c.type = "lunch") ∧
    idsNodup (addBreaksAndLunch g ts n).1 := by
  obtain ⟨hle, hkeys, hcnt, hmem, hnd2⟩ := abGo_spec g n
  refine ⟨hkeys, ?_, ?_, (hnd2 hbd hnd).1⟩
  · intro s
    unfold labCodeCount
    rw [← List.countP_eq_length_filter, ← List.countP_eq_length_filter]
    exact hcnt (fun c => c.code == some s && c.type == "lab")
      (fun kk tt => by simp [breakSession]) (fun kk => by simp [lunchSession])
  · intro c hc
    rcases hmem c hc with ⟨hmem2, _⟩ | ⟨ht, _, _⟩
    · exact Or.inl hmem2
    · rcases ht with ht | ht
      · exact Or.inr (Or.inl ht)
      · exact Or.inr (Or.inr ht)

/-! ### Optimizer composition -/

theorem optimizeTimetable_counts {g : Grid} (k : Constraints) (hnd : idsNodup g)
    (p : Session → Bool) (hp : ∀ c r, p { c with room := r } = p c) :
    List.countP p (allSessions (optimizeTimetable g k)) = List.countP p (allSessions g) := by
  have hred : optimizeTimetable g k
      = balanceDailyWorkload (resolveRoomConflicts (resolveTeacherConflicts g)) k := rfl
  obtain ⟨p1, k1⟩ := resolveTeacherConflicts_spec hnd
  have hnd1 : idsNodup (resolveTeacherConflicts g) := idsNodup_of_perm p1 hnd
  obtain ⟨c2, i2, k2⟩ := resolveRoomConflicts_spec p hp (resolveTeacherConflicts g)
  have hnd2 : idsNodup (resolveRoomConflicts (resolveTeacherConflicts g)) := by
    unfold idsNodup idsOf
    rw [i2]
    exact hnd1
  obtain ⟨p3, k3⟩ := balanceDailyWorkload_spec k hnd2
  rw [hred]
  rw [p3.countP_eq p, c2, p1.countP_eq p]

/-- Lab sessions violating the fixed two-hour duration stamp. -/
def labDurBad (c : Session) : Bool := c.type == "lab" && !(c.duration == some 2)

theorem allSessions_initTimetable : allSessions initTimetable = [] := rfl

theorem generateTimetable_final_grid {sd : SectionData} {ov : ConstraintOverrides} {r : Rng}
    {res : GeneratedTimetable} {r' : Rng}
    (h : generateTimetable sd ov r = .ok (res, r')) :
    (∀ s, labCodeCount res.timetable s ≤ 1) ∧
    List.countP labDurBad (allSessions res.timetable) = 0 := by
  unfold generateTimetable at h
  simp only [] at h
  cases hth : scheduleTheoryCourses initTimetable (sd.courses.filter (fun c => c.type == "theory"))
      sd.faculties sd.rooms sd.timeslots (mergeConstraints defaultConstraints ov) 0 r with
  | error e =>
    rw [hth] at h
    have h2 : (Except.error e : Except String (GeneratedTimetable × Rng)) = .ok (res, r') := h
    cases h2
  | ok p1 =>
    obtain ⟨g1, n1, r1⟩ := p1
    rw [hth] at h
    simp only [] at h
    cases hlab : scheduleLabCourses g1 (sd.courses.filter (fun c => c.type == "lab"))
        sd.faculties sd.rooms sd.timeslots (mergeConstraints defaultConstraints ov) n1 r1 with
    | error e =>
      rw [hlab] at h
      have h2 : (Except.error e : Except String (GeneratedTimetable × Rng)) = .ok (res, r') := h
      cases h2
    | ok p2 =>
      obtain ⟨g2, n2, r2⟩ := p2
      rw [hlab] at h
      have h2 : (Except.ok
          ({ timetable := optimizeTimetable (addBreaksAndLunch g2 sd.timeslots n2).1
              (mergeConstraints defaultConstraints ov),
             sectionId := sd.department ++ "-" ++ sd.semester ++ "-" ++ sd.sectionName,
             constraints := mergeConstraints defaultConstraints ov }, r2)
          : Except String (GeneratedTimetable × Rng)) = .ok (res, r') := h
      injection h2 with h3
      injection h3 with hres hr
      subst hres
      obtain ⟨tk, tle, tsat, tlab, tmem, tids, _⟩ :=
        scheduleTheoryGo_spec sd.faculties sd.rooms sd.timeslots
          (mergeConstraints defaultConstraints ov)
          (sd.courses.filter (fun c => c.type == "theory")) initTimetable 0 r g1 n1 r1 hth
      obtain ⟨lk, lle, lsat, llab, lmem, lids⟩ :=
        scheduleLabGo_spec sd.faculties sd.rooms sd.timeslots
          (mergeConstraints defaultConstraints ov)
          (sd.courses.filter (fun c => c.type == "lab")) g1 n1 r1 g2 n2 r2 hlab
      have hids0 : IdsOk initTimetable 0 := by
        constructor
        · unfold idsNodup idsOf
          rw [allSessions_initTimetable]
          exact List.nodup_nil
        · intro c hc
          rw [allSessions_initTimetable] at hc
          cases hc
      have hids2 : IdsOk g2 n2 := lids (tids hids0)
      have hlab1 : ∀ s, labCodeCount g1 s ≤ 1 := by
        intro s
        rw [tlab s]
        show labCodeCount initTimetable s ≤ 1
        exact Nat.le_succ 0
      have hlab2 : ∀ s, labCodeCount g2 s ≤ 1 := llab hlab1
      have hdb2 : List.countP labDurBad (allSessions g2) = 0 := by
        rw [List.countP_eq_zero]
        intro c hc
        rcases lmem c hc with hc1 | ⟨ht, hd⟩
        · rcases tmem c hc1 with hc2 | ht
          · rw [allSessions_initTimetable] at hc2
            cases hc2
          · simp [labDurBad, ht]
        · simp [labDurBad, ht, hd]
      obtain ⟨bk, blab, bmem, bnd⟩ :=
        addBreaksAndLunch_spec g2 sd.timeslots n2 hids2.2 hids2.1
      have hdb3 : List.countP labDurBad
          (allSessions (addBreaksAndLunch g2 sd.timeslots n2).1) = 0 := by
        rw [List.countP_eq_zero]
        intro c hc
        rcases bmem c hc with hc1 | ht | ht
        · exact (List.countP_eq_zero.mp hdb2) c hc1
        · simp [labDurBad, ht]
        · simp [labDurBad, ht]
      constructor
      · intro s
        show labCodeCount (optimizeTimetable (addBreaksAndLunch g2 sd.timeslots n2).1
          (mergeConstraints defaultConstraints ov)) s ≤ 1
        unfold labCodeCount
        rw [← List.countP_eq_length_filter]
        rw [optimizeTimetable_counts _ bnd
          (fun c => c.code == some s && c.type == "lab") (fun c rr => rfl)]
        rw [List.countP_eq_length_filter]
        have := blab s
        unfold labCodeCount at this
        rw [this]
        exact hlab2 s
      · show List.countP labDurBad (allSessions (optimizeTimetable
          (addBreaksAndLunch g2 sd.timeslots n2).1 (mergeConstraints defaultConstraints ov))) = 0
        rw [optimizeTimetable_counts _ bnd labDurBad (fun c rr => rfl)]
        exact hdb3

/-! ### Scorer: detected conflicts count duplicate keys -/

/-- Teacher keys of the qualifying sessions of one day, in traversal order. -/
def dayTKeys (day : String) (l : List Session) : List String :=
  (l.filter (fun c => jsTruthy c.teacher && jsTruthy c.room)).map
    (fun c => day ++ "_" ++ c.time ++ "_" ++ c.teacher.getD "")

/-- Room keys of the qualifying sessions of one day, in traversal order. -/
def dayRKeys (day : String) (l : List Session) : List String :=
  (l.filter (fun c => jsTruthy c.teacher && jsTruthy c.room)).map
    (fun c => day ++ "_" ++ c.time ++ "_" ++ c.room.getD "")

/-- All teacher keys of the grid in traversal order. -/
def teacherKeysOf (g : Grid) : List String :=
  (g.map (fun e => dayTKeys e.1 e.2)).flatten

/-- All room keys of the grid in traversal order. -/
def roomKeysOf (g : Grid) : List String :=
  (g.map (fun e => dayRKeys e.1 e.2)).flatten

/-- The seen-set accumulated by a first-occurrence scan. -/
def seenAfter (seen : List String) : List String → List String
  | [] => seen
  | k :: rest => if seen.contains k then seenAfter seen rest else seenAfter (k :: seen) rest

/-- Occurrences already seen during a first-occurrence scan. -/
def dupAux (seen : List String) : List String → Nat
  | [] => 0
  | k :: rest => if seen.contains k then 1 + dupAux seen rest else dupAux (k :: seen) rest

/-- Distinct unseen values encountered during a first-occurrence scan. -/
def freshCount (seen : List String) : List String → Nat
  | [] => 0
  | k :: rest => if seen.contains k then freshCount seen rest else 1 + freshCount (k :: seen) rest

theorem dupAux_add_freshCount (seen : List String) :
    ∀ l : List String, dupAux seen l + freshCount seen l = l.length
  | [] => rfl
  | k :: rest => by
    by_cases hk : seen.contains k = true
    · have h1 := dupAux_add_freshCount seen rest
      simp only [dupAux, freshCount, if_pos hk]
      simp only [List.length_cons]
      omega
    · have h1 := dupAux_add_freshCount (k :: seen) rest
      simp only [dupAux, freshCount, if_neg hk]
      simp only [List.length_cons]
      omega

theorem freshCount_card (seen : List String) :
    ∀ l : List String,
    freshCount seen l = (l.filter (fun k => !(seen.contains k))).toFinset.card
  | [] => rfl
  | k :: rest => by
    by_cases hk : seen.contains k = true
    · rw [show freshCount seen (k :: rest) = freshCount seen rest from by
        simp only [freshCount, if_pos hk]]
      rw [freshCount_card seen rest]
      rw [List.filter_cons]
      rw [if_neg (by rw [hk]; simp)]
    · have hkf : seen.contains k = false := by
        cases hcc : seen.contains k
        · rfl
        · exact absurd hcc hk
      rw [show freshCount seen (k :: rest) = 1 + freshCount (k :: seen) rest from by
        simp only [freshCount, if_neg hk]]
      rw [freshCount_card (k :: seen) rest]
      rw [List.filter_cons]
      rw [if_pos (by rw [hkf]; rfl)]
      have hff : rest.filter (fun x => !((k :: seen).contains x))
          = (rest.filter (fun x => !(seen.contains x))).filter (fun x => !(x == k)) := by
        rw [List.filter_filter]
        congr 1
        funext x
        simp only [List.contains_cons, Bool.not_or]
      rw [hff]
      set S := (rest.filter (fun x => !(seen.contains x))).toFinset with hS
      have hSS : ((rest.filter (fun x => !(seen.contains x))).filter
          (fun x => !(x == k))).toFinset = S.erase k := by
        rw [List.toFinset_filter]
        rw [← Finset.filter_ne' S k]
        refine Finset.filter_congr ?_
        intro x _
        simp [bne_iff_ne]
      rw [hSS]
      rw [List.toFinset_cons]
      by_cases hmem : k ∈ S
      · rw [Finset.insert_eq_self.mpr hmem]
        rw [Finset.card_erase_of_mem hmem]
        have : 0 < S.card := Finset.card_pos.mpr ⟨k, hmem⟩
        omega
      · rw [Finset.card_insert_of_not_mem hmem]
        rw [Finset.erase_eq_of_not_mem hmem]
        omega

theorem dupAux_nil_eq (l : List String) :
    dupAux [] l = l.length - l.dedup.length := by
  have h1 := dupAux_add_freshCount [] l
  have h2 := freshCount_card [] l
  have h3 : l.filter (fun k => !(([] : List String).contains k)) = l := by
    refine List.filter_eq_self.mpr ?_
    intro a _
    rfl
  rw [h3] at h2
  have h4 : l.toFinset.card = l.dedup.length := List.card_toFinset l
  omega

theorem dupAux_append (seen : List String) (l1 l2 : List String) :
    dupAux seen (l1 ++ l2) = dupAux seen l1 + dupAux (seenAfter seen l1) l2 := by
  induction l1 generalizing seen with
  | nil => simp [dupAux, seenAfter]
  | cons k rest ih =>
    have hca : (k :: rest) ++ l2 = k :: (rest ++ l2) := rfl
    rw [hca]
    by_cases hk : seen.contains k = true
    · simp only [dupAux, seenAfter, if_pos hk]
      rw [ih seen]
      omega
    · simp only [dupAux, seenAfter, if_neg hk]
      rw [ih (k :: seen)]

theorem dupAux_cons (seen : List String) (k : String) (rest : List String) :
    dupAux seen (k :: rest)
      = if seen.contains k then 1 + dupAux seen rest else dupAux (k :: seen) rest := rfl

theorem seenAfter_cons (seen : List String) (k : String) (rest : List String) :
    seenAfter seen (k :: rest)
      = if seen.contains k then seenAfter seen rest else seenAfter (k :: seen) rest := rfl

theorem dcDay_spec (day : String) :
    ∀ (l : List Session) (t rS c : List String),
    (dcDay day l t rS c).1 = seenAfter t (dayTKeys day l) ∧
    (dcDay day l t rS c).2.1 = seenAfter rS (dayRKeys day l) ∧
    (dcDay day l t rS c).2.2.length
      = c.length + dupAux t (dayTKeys day l) + dupAux rS (dayRKeys day l)
  | [], t, rS, c => ⟨rfl, rfl, by simp [dcDay, dayTKeys, dayRKeys, dupAux]⟩
  | cls :: rest, t, rS, c => by
    have hred : dcDay day (cls :: rest) t rS c
        = dcDay day rest (dcSession day t rS c cls).1 (dcSession day t rS c cls).2.1
            (dcSession day t rS c cls).2.2 := rfl
    obtain ⟨iht, ihr, ihc⟩ := dcDay_spec day rest (dcSession day t rS c cls).1
      (dcSession day t rS c cls).2.1 (dcSession day t rS c cls).2.2
    by_cases hq : (jsTruthy cls.teacher && jsTruthy cls.room) = true
    · have htk : dayTKeys day (cls :: rest)
          = (day ++ "_" ++ cls.time ++ "_" ++ cls.teacher.getD "") :: dayTKeys day rest := by
        unfold dayTKeys
        rw [List.filter_cons, if_pos hq, List.map_cons]
      have hrk : dayRKeys day (cls :: rest)
          = (day ++ "_" ++ cls.time ++ "_" ++ cls.room.getD "") :: dayRKeys day rest := by
        unfold dayRKeys
        rw [List.filter_cons, if_pos hq, List.map_cons]
      by_cases h1 : t.contains (day ++ "_" ++ cls.time ++ "_" ++ cls.teacher.getD "") = true
      · by_cases h2 : rS.contains (day ++ "_" ++ cls.time ++ "_" ++ cls.room.getD "") = true
        · have hsess : dcSession day t rS c cls = (t, rS,
              (c ++ ["Teacher " ++ cls.teacher.getD "" ++ " double booked on " ++ day ++
                " at " ++ cls.time]) ++
              ["Room " ++ cls.room.getD "" ++ " double booked on " ++ day ++ " at " ++
                cls.time]) := by
            unfold dcSession
            rw [if_pos hq, if_pos h1, if_pos h1, if_pos h2, if_pos h2]
          rw [hsess] at iht ihr ihc
          rw [hred, hsess, htk, hrk]
          rw [seenAfter_cons, seenAfter_cons, dupAux_cons, dupAux_cons]
          rw [if_pos h1, if_pos h1, if_pos h2, if_pos h2]
          refine ⟨iht, ihr, ?_⟩
          rw [ihc]
          simp only [List.length_append, List.length_singleton]
          omega
        · have hsess : dcSession day t rS c cls = (t,
              (day ++ "_" ++ cls.time ++ "_" ++ cls.room.getD "") :: rS,
              c ++ ["Teacher " ++ cls.teacher.getD "" ++ " double booked on " ++ day ++
                " at " ++ cls.time]) := by
            unfold dcSession
            rw [if_pos hq, if_pos h1, if_pos h1, if_neg h2, if_neg h2]
          rw [hsess] at iht ihr ihc
          rw [hred, hsess, htk, hrk]
          rw [seenAfter_cons, seenAfter_cons, dupAux_cons, dupAux_cons]
          rw [if_pos h1, if_pos h1, if_neg h2, if_neg h2]
          refine ⟨iht, ihr, ?_⟩
          rw [ihc]
          simp only [List.length_append, List.length_singleton]
          omega
      · by_cases h2 : rS.contains (day ++ "_" ++ cls.time ++ "_" ++ cls.room.getD "") = true
        · have hsess : dcSession day t rS c cls = (
              (day ++ "_" ++ cls.time ++ "_" ++ cls.teacher.getD "") :: t, rS,
              c ++ ["Room " ++ cls.room.getD "" ++ " double booked on " ++ day ++ " at " ++
                cls.time]) := by
            unfold dcSession
            rw [if_pos hq, if_neg h1, if_neg h1, if_pos h2, if_pos h2]
          rw [hsess] at iht ihr ihc
          rw [hred, hsess, htk, hrk]
          rw [seenAfter_cons, seenAfter_cons, dupAux_cons, dupAux_cons]
          rw [if_neg h1, if_neg h1, if_pos h2, if_pos h2]
          refine ⟨iht, ihr, ?_⟩
          rw [ihc]
          simp only [List.length_append, List.length_singleton]
          omega
        · have hsess : dcSession day t rS c cls = (
              (day ++ "_" ++ cls.time ++ "_" ++ cls.teacher.getD "") :: t,
              (day ++ "_" ++ cls.time ++ "_" ++ cls.room.getD "") :: rS, c) := by
            unfold dcSession
            rw [if_pos hq, if_neg h1, if_neg h1, if_neg h2, if_neg h2]
          rw [hsess] at iht ihr ihc
          rw [hred, hsess, htk, hrk]
          rw [seenAfter_cons, seenAfter_cons, dupAux_cons, dupAux_cons]
          rw [if_neg h1, if_neg h1, if_neg h2, if_neg h2]
          exact ⟨iht, ihr, ihc⟩
    · have htk : dayTKeys day (cls :: rest) = dayTKeys day rest := by
        unfold dayTKeys
        rw [List.filter_cons, if_neg hq]
      have hrk : dayRKeys day (cls :: rest) = dayRKeys day rest := by
        unfold dayRKeys
        rw [List.filter_cons, if_neg hq]
      have hsess : dcSession day t rS c cls = (t, rS, c) := by
        unfold dcSession
        rw [if_neg hq]
      rw [hsess] at iht ihr ihc
      rw [hred, hsess, htk, hrk]
      exact ⟨iht, ihr, ihc⟩

theorem dcGo_spec : ∀ (g : Grid) (t rS c : List String),
    (dcGo g t rS c).length
      = c.length + dupAux t (teacherKeysOf g) + dupAux rS (roomKeysOf g)
  | [], t, rS, c => by simp [dcGo, teacherKeysOf, roomKeysOf, dupAux]
  | (day, l) :: rest, t, rS, c => by
    have hred : dcGo ((day, l) :: rest) t rS c
        = dcGo rest (dcDay day l t rS c).1 (dcDay day l t rS c).2.1
            (dcDay day l t rS c).2.2 := rfl
    obtain ⟨ht, hr, hc⟩ := dcDay_spec day l t rS c
    have ihg := dcGo_spec rest (dcDay day l t rS c).1 (dcDay day l t rS c).2.1
      (dcDay day l t rS c).2.2
    rw [hred, ihg, ht, hr, hc]
    have htK : teacherKeysOf ((day, l) :: rest) = dayTKeys day l ++ teacherKeysOf rest := rfl
    have hrK : roomKeysOf ((day, l) :: rest) = dayRKeys day l ++ roomKeysOf rest := rfl
    rw [htK, hrK, dupAux_append, dupAux_append]
    omega

/-- Number of scanned duplicate occurrences: total length minus distinct
keys, per key family. -/
def specConflictCount (g : Grid) : Nat :=
  ((teacherKeysOf g).length - (teacherKeysOf g).dedup.length) +
  ((roomKeysOf g).length - (roomKeysOf g).dedup.length)

/-- The score formula exactly as the specification words it: 100, minus 10
per detected duplicate (day, time, teacher) or (day, time, room)
occurrence, plus a balance bonus of -5 times the spread between the
largest and smallest daily theory/lab counts, clamped below at zero. -/
def specScore (g : Grid) : Int :=
  max 0 (100 - 10 * (specConflictCount g : Int) +
    (-5) * ((listMax (dailyTLCounts g) : Int) - (listMin (dailyTLCounts g) : Int)))

theorem detectConflicts_length (g : Grid) :
    (detectConflicts g).length = specConflictCount g := by
  unfold detectConflicts specConflictCount
  rw [dcGo_spec g [] [] []]
  rw [dupAux_nil_eq, dupAux_nil_eq]
  simp

/-! ### Concrete catalogues and grids used by the per-claim instances -/

/-- A minimal theory course record. -/
def thCourse (nm tch : String) : Course :=
  { name := nm, code := nm, type := "theory", teacherId := tch, credits := 3,
    labCredits := none, expectedStudents := none }

/-- A minimal lab course record. -/
def labCourse (nm cd tch : String) : Course :=
  { name := nm, code := cd, type := "lab", teacherId := tch, credits := 3,
    labCredits := none, expectedStudents := none }

/-- Five theory courses and one lab submitted with a ceiling of one class
per day: construction fills Monday once, the lab pass and the lunch
insertion then push it past the ceiling. -/
def c1sd : SectionData :=
  { department := "CSE", semester := "3", sectionName := "A",
    courses := [thCourse "T1" "t1", thCourse "T2" "t2", thCourse "T3" "t3",
                thCourse "T4" "t4", thCourse "T5" "t5", labCourse "ML" "L1" "t6"],
    faculties := [], rooms := [],
    timeslots := [⟨"09:00", "10:00", "theory"⟩, ⟨"10:00", "12:00", "lab"⟩] }

def c1ov : ConstraintOverrides := { MAX_CLASSES_PER_DAY := some 1 }

def c1rng : Rng := streamOf [0, 0, 1, 0, 2, 0, 3, 0, 4, 0, 0, 0]

/-- One theory course facing a zero class ceiling: its hundred placement
attempts all fail. -/
def c2sd : SectionData :=
  { department := "CSE", semester := "3", sectionName := "A",
    courses := [thCourse "T1" "t1"],
    faculties := [], rooms := [],
    timeslots := [⟨"09:00", "10:00", "theory"⟩] }

/-- The same catalogue with the course removed. -/
def c2sdNo : SectionData := { c2sd with courses := [] }

def c2ov : ConstraintOverrides := { MAX_CLASSES_PER_DAY := some 0 }

def c2rng : Rng := streamOf []

def c4slot : Slot := ⟨"09:00", "10:00", "theory"⟩

def c4course : Course := thCourse "T1" "t1"

def c4rooms : List Room := [⟨"Room A", "classroom", 60⟩, ⟨"Room B", "classroom", 60⟩]

/-- A session occupying Room A at the probed slot time. -/
def c4occ : Session :=
  { id := 9, time := "09:00-10:00", course := "X", code := some "X",
    teacher := some "t9", room := some "Room A", type := "theory", credits := some 3,
    duration := none, isBreak := false, isLunch := false }

def c4grid : Grid := [("Monday", [c4occ])]

/-- First canScheduleCourse call: the random stream makes it sample the
occupied Room A. -/
def c4res1 : Except String (Bool × Rng) :=
  canScheduleCourse c4grid "Monday" (some c4slot) c4course [] c4rooms defaultConstraints
    (streamOf [0, 1])

/-- The stream state the first call hands back. -/
def c4rng1 : Rng :=
  match c4res1 with
  | .ok (_, r) => r
  | .error _ => streamOf []

/-- Second call with the identical grid, day, slot, course and room list:
the advanced stream now samples the free Room B. -/
def c4res2 : Except String (Bool × Rng) :=
  canScheduleCourse c4grid "Monday" (some c4slot) c4course [] c4rooms defaultConstraints c4rng1

/-- A theory session stamped with a given identity. -/
def mkTh (i : Nat) : Session :=
  { id := i, time := "09:00-10:00", course := "C", code := some "C",
    teacher := some "t", room := some "R", type := "theory", credits := some 3,
    duration := none, isBreak := false, isLunch := false }

/-- Monday overloaded with five theory sessions, Tuesday holding one,
Wednesday through Saturday empty. -/
def c6grid : Grid :=
  [("Monday", [mkTh 0, mkTh 1, mkTh 2, mkTh 3, mkTh 4]),
   ("Tuesday", [mkTh 5]), ("Wednesday", []), ("Thursday", []), ("Friday", []),
   ("Saturday", [])]

/-- Two theory courses whose slots leave a thirty-minute gap, submitted with
a thousand-minute minimum break override. -/
def c8sd : SectionData :=
  { department := "CSE", semester := "3", sectionName := "A",
    courses := [thCourse "T1" "t1", thCourse "T2" "t2"],
    faculties := [], rooms := [],
    timeslots := [⟨"09:00", "10:00", "theory"⟩, ⟨"10:30", "11:30", "theory"⟩] }

def c8ov : ConstraintOverrides := { MIN_BREAK_BETWEEN_CLASSES := some 1000 }

def c8rng : Rng := streamOf [0, 0, 0, 1]

/-- A catalogue with zero courses. -/
def c9sd : SectionData :=
  { department := "CSE", semester := "3", sectionName := "A", courses := [],
    faculties := [], rooms := [], timeslots := [⟨"09:00", "10:00", "theory"⟩] }

/-- A single lab course: the full pipeline places one two-hour lab block and
a lunch marker on Monday. -/
def w5sd : SectionData :=
  { department := "CSE", semester := "3", sectionName := "A",
    courses := [labCourse "ML" "L1" "t1"],
    faculties := [], rooms := [],
    timeslots := [⟨"10:00", "12:00", "lab"⟩] }

def c10x : Session := mkTh 0

/-- Monday through Friday all hold a conflicting session at the probed time
and teacher; Saturday is free, so relocation lands there. -/
def c10grid : Grid :=
  [("Monday", [mkTh 0]), ("Tuesday", [mkTh 1]), ("Wednesday", [mkTh 2]),
   ("Thursday", [mkTh 3]), ("Friday", [mkTh 4]), ("Saturday", [])]

def w10course : Course := thCourse "W1" "w1"

def w10ts : List Slot := [⟨"09:00", "10:00", "theory"⟩]

def w10r : Rng := streamOf [0, 0]

/-! ### Exhausted-budget behaviour under a zero ceiling -/

theorem weekday_lookup_init : ∀ d ∈ weekdays, lookupDay initTimetable d = some [] := by
  intro d hd
  fin_cases hd <;> rfl

/-- With a zero ceiling and an empty day bucket, every placement check
fails (after consuming the room sample). -/
theorem canScheduleCourse_empty_day {g : Grid} {day : String} (slot : Option Slot)
    (course : Course) (f : List Faculty) (rooms : List Room) {k : Constraints} (r : Rng)
    (h : lookupDay g day = some []) (hk : k.MAX_CLASSES_PER_DAY = 0) :
    canScheduleCourse g day slot course f rooms k r
      = .ok (false, (findSuitableRoom rooms course r).2) := by
  unfold canScheduleCourse
  rw [h]
  simp only [anyWithSlotTime, hk]
  simp

/-- A failed attempt only advances the random stream. -/
theorem theoryAttemptLoop_step {g : Grid} {slots : List Slot} {course : Course}
    {f : List Faculty} {rooms : List Room} {k : Constraints} {n fuel : Nat} {r r3 : Rng}
    (hcan : canScheduleCourse g (getRandomDay r).1
        (slots[(randBelow slots.length (getRandomDay r).2).1]?) course f rooms k
        (randBelow slots.length (getRandomDay r).2).2 = .ok (false, r3)) :
    theoryAttemptLoop g slots course f rooms k n (fuel + 1) r
      = theoryAttemptLoop g slots course f rooms k n fuel r3 := by
  conv_lhs => rw [theoryAttemptLoop]
  split
  rename_i day r1 hgrd
  split
  rename_i i r2 hrb
  simp only []
  rw [hgrd] at hcan
  simp only [] at hcan
  rw [hrb] at hcan
  simp only [] at hcan
  rw [hcan]
  simp

/-- Under a zero ceiling the whole attempt loop exhausts its budget and
returns the grid and counter unchanged. -/
theorem theoryAttemptLoop_ceiling_zero (slots : List Slot) (course : Course)
    (f : List Faculty) (rooms : List Room) {k : Constraints}
    (hk : k.MAX_CLASSES_PER_DAY = 0) :
    ∀ (fuel n : Nat) (r : Rng), ∃ r',
    theoryAttemptLoop initTimetable slots course f rooms k n fuel r
      = .ok (initTimetable, n, r')
  | 0, n, r => ⟨r, rfl⟩
  | fuel + 1, n, r => by
    have hday : lookupDay initTimetable (getRandomDay r).1 = some [] :=
      weekday_lookup_init _ (getRandomDay_fst_mem r)
    have hcan := canScheduleCourse_empty_day
      (slots[(randBelow slots.length (getRandomDay r).2).1]?) course f rooms
      (randBelow slots.length (getRandomDay r).2).2 hday hk
    obtain ⟨r', hrec⟩ := theoryAttemptLoop_ceiling_zero slots course f rooms hk fuel n
      (findSuitableRoom rooms course (randBelow slots.length (getRandomDay r).2).2).2
    exact ⟨r', by rw [theoryAttemptLoop_step hcan]; exact hrec⟩

/-- Every course of the list exhausts its budget, generation continues with
the rest, and nothing but the random stream changes. -/
theorem scheduleTheoryGo_ceiling_zero (f : List Faculty) (rooms : List Room)
    (tts : List Slot) {k : Constraints} (hk : k.MAX_CLASSES_PER_DAY = 0) :
    ∀ (courses : List Course) (n : Nat) (r : Rng), ∃ r',
    scheduleTheoryGo f rooms tts k courses initTimetable n r = .ok (initTimetable, n, r')
  | [], n, r => ⟨r, rfl⟩
  | course :: rest, n, r => by
    obtain ⟨r1, h1⟩ := theoryAttemptLoop_ceiling_zero
      (tts.filter (fun slot => slot.type == "theory")) course f rooms hk 100 n r
    obtain ⟨r', h2⟩ := scheduleTheoryGo_ceiling_zero f rooms tts hk rest n r1
    refine ⟨r', ?_⟩
    unfold scheduleTheoryGo
    rw [h1]
    exact h2

/-! ### The constraints argument reaches only the theory ceiling check -/

theorem canScheduleCourse_congr (k1 k2 : Constraints)
    (hk : k1.MAX_CLASSES_PER_DAY = k2.MAX_CLASSES_PER_DAY) :
    ∀ (g : Grid) (day : String) (slot : Option Slot) (course : Course)
      (f : List Faculty) (rooms : List Room) (r : Rng),
    canScheduleCourse g day slot course f rooms k1 r
      = canScheduleCourse g day slot course f rooms k2 r := by
  intro g day slot course f rooms r
  unfold canScheduleCourse
  simp only [hk]

theorem canScheduleLab_congr (k1 k2 : Constraints) :
    ∀ (g : Grid) (day : String) (slot : Option Slot) (course : Course)
      (f : List Faculty) (rooms : List Room) (r : Rng),
    canScheduleLab g day slot course f rooms k1 r
      = canScheduleLab g day slot course f rooms k2 r :=
  fun _ _ _ _ _ _ _ => rfl

theorem theoryAttemptLoop_congr (slots : List Slot) (course : Course) (f : List Faculty)
    (rooms : List Room) (k1 k2 : Constraints)
    (hk : k1.MAX_CLASSES_PER_DAY = k2.MAX_CLASSES_PER_DAY) :
    ∀ (fuel : Nat) (g : Grid) (n : Nat) (r : Rng),
    theoryAttemptLoop g slots course f rooms k1 n fuel r
      = theoryAttemptLoop g slots course f rooms k2 n fuel r := by
  intro fuel
  induction fuel with
  | zero => intro g n r; rfl
  | succ fuel ih =>
    intro g n r
    simp only [theoryAttemptLoop]
    simp only [canScheduleCourse_congr k1 k2 hk]
    simp only [ih]

theorem labAttemptLoop_congr (slots : List Slot) (course : Course) (f : List Faculty)
    (rooms : List Room) (k1 k2 : Constraints) :
    ∀ (fuel : Nat) (g : Grid) (n : Nat) (r : Rng),
    labAttemptLoop g slots course f rooms k1 n fuel r
      = labAttemptLoop g slots course f rooms k2 n fuel r := by
  intro fuel
  induction fuel with
  | zero => intro g n r; rfl
  | succ fuel ih =>
    intro g n r
    simp only [labAttemptLoop]
    simp only [canScheduleLab_congr k1 k2]
    simp only [ih]

theorem scheduleTheoryGo_congr (f : List Faculty) (rooms : List Room) (tts : List Slot)
    (k1 k2 : Constraints) (hk : k1.MAX_CLASSES_PER_DAY = k2.MAX_CLASSES_PER_DAY) :
    ∀ (courses : List Course) (g : Grid) (n : Nat) (r : Rng),
    scheduleTheoryGo f rooms tts k1 courses g n r
      = scheduleTheoryGo f rooms tts k2 courses g n r := by
  intro courses
  induction courses with
  | nil => intro g n r; rfl
  | cons course rest ih =>
    intro g n r
    simp only [scheduleTheoryGo]
    simp only [theoryAttemptLoop_congr _ course f rooms k1 k2 hk]
    simp only [ih]

theorem scheduleLabGo_congr (f : List Faculty) (rooms : List Room) (tts : List Slot)
    (k1 k2 : Constraints) :
    ∀ (courses : List Course) (g : Grid) (n : Nat) (r : Rng),
    scheduleLabGo f rooms tts k1 courses g n r = scheduleLabGo f rooms tts k2 courses g n r := by
  intro courses
  induction courses with
  | nil => intro g n r; rfl
  | cons course rest ih =>
    intro g n r
    simp only [scheduleLabGo]
    simp only [labAttemptLoop_congr _ course f rooms k1 k2]
    simp only [ih]

theorem optimizeTimetable_congr (g : Grid) (k1 k2 : Constraints) :
    optimizeTimetable g k1 = optimizeTimetable g k2 := rfl

/-- The grid and section id produced by generateTimetable depend on the
caller overrides only through maxClassesPerDay: in particular the
minBreakMinutes override is never consulted. -/
theorem generateTimetable_minBreak_irrelevant (sd : SectionData)
    (ov1 ov2 : ConstraintOverrides) (r : Rng)
    (hmax : ov1.MAX_CLASSES_PER_DAY = ov2.MAX_CLASSES_PER_DAY) :
    Except.map (fun p => (p.1.timetable, p.1.sectionId)) (generateTimetable sd ov1 r)
      = Except.map (fun p => (p.1.timetable, p.1.sectionId)) (generateTimetable sd ov2 r) := by
  have hk : (mergeConstraints defaultConstraints ov1).MAX_CLASSES_PER_DAY
      = (mergeConstraints defaultConstraints ov2).MAX_CLASSES_PER_DAY := by
    unfold mergeConstraints
    simp only []
    rw [hmax]
  unfold generateTimetable
  simp only []
  have hth : scheduleTheoryCourses initTimetable (sd.courses.filter (fun c => c.type == "theory"))
      sd.faculties sd.rooms sd.timeslots (mergeConstraints defaultConstraints ov1) 0 r
      = scheduleTheoryCourses initTimetable (sd.courses.filter (fun c => c.type == "theory"))
        sd.faculties sd.rooms sd.timeslots (mergeConstraints defaultConstraints ov2) 0 r :=
    scheduleTheoryGo_congr sd.faculties sd.rooms sd.timeslots _ _ hk _ initTimetable 0 r
  rw [hth]
  cases hres : scheduleTheoryCourses initTimetable
      (sd.courses.filter (fun c => c.type == "theory")) sd.faculties sd.rooms sd.timeslots
      (mergeConstraints defaultConstraints ov2) 0 r with
  | error e => rfl
  | ok p =>
    obtain ⟨g1, n1, r1⟩ := p
    simp only []
    have hlab : scheduleLabCourses g1 (sd.courses.filter (fun c => c.type == "lab"))
        sd.faculties sd.rooms sd.timeslots (mergeConstraints defaultConstraints ov1) n1 r1
        = scheduleLabCourses g1 (sd.courses.filter (fun c => c.type == "lab"))
          sd.faculties sd.rooms sd.timeslots (mergeConstraints defaultConstraints ov2) n1 r1 :=
      scheduleLabGo_congr sd.faculties sd.rooms sd.timeslots _ _ _ g1 n1 r1
    rw [hlab]
    cases hres2 : scheduleLabCourses g1 (sd.courses.filter (fun c => c.type == "lab"))
        sd.faculties sd.rooms sd.timeslots (mergeConstraints defaultConstraints ov2) n1 r1 with
    | error e => rfl
    | ok p2 =>
      obtain ⟨g2, n2, r2⟩ := p2
      simp only [Except.map]
      rw [optimizeTimetable_congr (addBreaksAndLunch g2 sd.timeslots n2).1
        (mergeConstraints defaultConstraints ov1) (mergeConstraints defaultConstraints ov2)]

/-! ### The placement checks are deterministic given the sampled room -/

theorem canScheduleCourse_room_determined (g : Grid) (day : String) (slot : Option Slot)
    (course : Course) (f : List Faculty) (rooms : List Room) (k : Constraints)
    (r1 r2 : Rng)
    (h : (findSuitableRoom rooms course r1).1 = (findSuitableRoom rooms course r2).1) :
    Except.map Prod.fst (canScheduleCourse g day slot course f rooms k r1)
      = Except.map Prod.fst (canScheduleCourse g day slot course f rooms k r2) := by
  unfold canScheduleCourse
  cases hld : lookupDay g day with
  | none => rfl
  | some ds =>
    simp only []
    cases hany : anyWithSlotTime ds slot
        (fun sc st => sc.teacher == some course.teacherId && sc.time == st) with
    | error e => rfl
    | ok tc =>
      cases tc with
      | true => rfl
      | false =>
        simp only []
        cases hf1 : findSuitableRoom rooms course r1 with
        | mk room1 rr1 =>
          cases hf2 : findSuitableRoom rooms course r2 with
          | mk room2 rr2 =>
            rw [hf1, hf2] at h
            simp only [] at h
            subst h
            simp only []
            cases hrc : anyWithSlotTime ds slot
                (fun sc st => sc.room == some room1 && sc.time == st) with
            | error e => rfl
            | ok rc =>
              cases rc with
              | true => rfl
              | false =>
                simp only []
                by_cases hceil : k.MAX_CLASSES_PER_DAY ≤ ds.length
                · rw [if_pos hceil, if_pos hceil]
                  rfl
                · rw [if_neg hceil, if_neg hceil]
                  rfl

theorem canScheduleLab_room_determined (g : Grid) (day : String) (slot : Option Slot)
    (course : Course) (f : List Faculty) (rooms : List Room) (k : Constraints)
    (r1 r2 : Rng)
    (h : (findLabRoom rooms course r1).1 = (findLabRoom rooms course r2).1) :
    Except.map Prod.fst (canScheduleLab g day slot course f rooms k r1)
      = Except.map Prod.fst (canScheduleLab g day slot course f rooms k r2) := by
  unfold canScheduleLab
  cases hld : lookupDay g day with
  | none => rfl
  | some ds =>
    simp only []
    by_cases htc : (ds.any (fun sc => sc.teacher == some course.teacherId)) = true
    · rw [if_pos htc, if_pos htc]
      rfl
    · rw [if_neg htc, if_neg htc]
      cases hf1 : findLabRoom rooms course r1 with
      | mk room1 rr1 =>
        cases hf2 : findLabRoom rooms course r2 with
        | mk room2 rr2 =>
          rw [hf1, hf2] at h
          simp only [] at h
          subst h
          simp only []
          by_cases hrc : (ds.any (fun sc => sc.room == some room1)) = true
          · rw [if_pos hrc, if_pos hrc]
            rfl
          · rw [if_neg hrc, if_neg hrc]
            by_cases hwk : ((canScheduleLab.g_values g).any
                (fun dayClasses => dayClasses.any
                  (fun sc => sc.code == some (course.code ++ "L")))) = true
            · rw [if_pos hwk, if_pos hwk]
              rfl
            · rw [if_neg hwk, if_neg hwk]
              rfl

/-! ### Room selection totality -/

theorem randBelow_lt {n : Nat} (r : Rng) (h : n ≠ 0) : (randBelow n r).1 < n := by
  show (if n == 0 then 0 else r 0 % n) < n
  rw [if_neg (by simpa using h)]
  exact Nat.mod_lt _ (Nat.pos_of_ne_zero h)

/-! ### The ten claims -/

/-- Claim C1 (amended): the per-day class ceiling holds while theory
courses are being placed — after scheduleTheoryCourses runs on the fresh
grid, every day bucket has at most MAX_CLASSES_PER_DAY sessions.  The
final grid of generateTimetable can exceed the ceiling, as the
counterexample shows: labs and the repair passes never consult it. -/
theorem claim_C1 : ∀ (courses : List Course) (f : List Faculty) (rooms : List Room)
    (tts : List Slot) (k : Constraints) (r : Rng) (g1 : Grid) (n1 : Nat) (r1 : Rng),
    scheduleTheoryCourses initTimetable courses f rooms tts k 0 r = .ok (g1, n1, r1) →
    ∀ e ∈ g1, e.2.length ≤ k.MAX_CLASSES_PER_DAY := by
  intro courses f rooms tts k r g1 n1 r1 h
  have hspec := scheduleTheoryGo_spec f rooms tts k courses initTimetable 0 r g1 n1 r1 h
  refine hspec.2.2.2.2.2.2 ?_
  intro e he
  simp only [initTimetable, List.mem_cons, List.not_mem_nil, or_false] at he
  rcases he with rfl | rfl | rfl | rfl | rfl | rfl <;> exact Nat.zero_le _

/-- Claim C2 (amended): when every placement attempt fails — here forced by
a zero class ceiling — the run never aborts and generation continues for
the remaining courses, returning ok with the grid and identifier counter
unchanged; nothing in the returned value records the unplaced courses. -/
theorem claim_C2 : ∀ (k : Constraints), k.MAX_CLASSES_PER_DAY = 0 →
    ∀ (courses : List Course) (f : List Faculty) (rooms : List Room) (tts : List Slot)
      (n : Nat) (r : Rng), ∃ r',
    scheduleTheoryCourses initTimetable courses f rooms tts k n r
      = .ok (initTimetable, n, r') := by
  intro k hk courses f rooms tts n r
  exact scheduleTheoryGo_ceiling_zero f rooms tts hk courses n r

/-- Claim C3: for every grid the score is 100 minus 10 per detected
duplicate day-time-teacher or day-time-room occurrence, plus minus 5 times
the spread between the largest and smallest daily theory or lab counts,
clamped below at zero. -/
theorem claim_C3 : ∀ g : Grid, calculateTimetableScore g = specScore g := by
  intro g
  unfold calculateTimetableScore specScore calculateBalanceScore
  simp only []
  rw [detectConflicts_length]
  congr 1
  ring

/-- Claim C4 (amended): the placement checks are pure functions of the
grid, day, slot, course, room list, constraints and the sampled room —
two calls agree on their boolean whenever the room sampler returns the
same name.  They are not deterministic in the stated inputs alone, because
each call draws a fresh random room, as the counterexample shows. -/
theorem claim_C4 :
    (∀ (g : Grid) (day : String) (slot : Option Slot) (course : Course)
        (f : List Faculty) (rooms : List Room) (k : Constraints) (r1 r2 : Rng),
      (findSuitableRoom rooms course r1).1 = (findSuitableRoom rooms course r2).1 →
      Except.map Prod.fst (canScheduleCourse g day slot course f rooms k r1)
        = Except.map Prod.fst (canScheduleCourse g day slot course f rooms k r2)) ∧
    (∀ (g : Grid) (day : String) (slot : Option Slot) (course : Course)
        (f : List Faculty) (rooms : List Room) (k : Constraints) (r1 r2 : Rng),
      (findLabRoom rooms course r1).1 = (findLabRoom rooms course r2).1 →
      Except.map Prod.fst (canScheduleLab g day slot course f rooms k r1)
        = Except.map Prod.fst (canScheduleLab g day slot course f rooms k r2)) :=
  ⟨canScheduleCourse_room_determined, canScheduleLab_room_determined⟩

/-- Claim C5: in every grid generateTimetable returns, each lab code has at
most one lab session in the whole week, and every lab session carries the
fixed two-hour duration stamp. -/
theorem claim_C5 : ∀ (sd : SectionData) (ov : ConstraintOverrides) (r : Rng)
    (res : GeneratedTimetable) (r' : Rng),
    generateTimetable sd ov r = .ok (res, r') →
    (∀ s, labCodeCount res.timetable s ≤ 1) ∧
    List.countP labDurBad (allSessions res.timetable) = 0 :=
  fun _ _ _ _ _ h => generateTimetable_final_grid h

/-- Claim C6 (amended): workload balancing preserves the sessions and the
day keys, and every target day redistributeClasses picks is a member of
the other-day list that either has a strictly smaller bucket than the
source day or is the first other day (the fallback) — it is the FIRST
smaller day, not the day with the fewest sessions, as the counterexample
shows. -/
theorem claim_C6 :
    (∀ (g : Grid) (k : Constraints), idsNodup g →
      List.Perm (allSessions (balanceDailyWorkload g k)) (allSessions g) ∧
      gridKeys (balanceDailyWorkload g k) = gridKeys g) ∧
    (∀ (fromDay : String) (days : List String) (g : Grid) (d : String),
      rcTarget fromDay days g = some d →
      d ∈ days ∧
        ((getDay g d).length < (getDay g fromDay).length ∨ days[0]? = some d)) := by
  constructor
  · intro g k hnd
    exact balanceDailyWorkload_spec k hnd
  · intro fromDay days g d h
    unfold rcTarget at h
    cases hf : days.find? (fun day => (getDay g day).length < (getDay g fromDay).length) with
    | some d0 =>
      rw [hf] at h
      simp only [] at h
      by_cases hd0 : d0 = ""
      · rw [if_pos hd0] at h
        exact ⟨List.getElem?_mem h, Or.inr h⟩
      · rw [if_neg hd0] at h
        injection h with h
        subst h
        refine ⟨List.mem_of_find?_eq_some hf, Or.inl ?_⟩
        have h3 := List.find?_some hf
        simpa using h3
    | none =>
      rw [hf] at h
      simp only [] at h
      exact ⟨List.getElem?_mem h, Or.inr h⟩

/-- Claim C7: room selection is total — a suitable classroom when one
exists, the first classroom when none is large enough, the literal
Room 201 when there is no classroom at all; lab selection returns some lab
room when one exists and the literal Lab 101 otherwise. -/
theorem claim_C7 :
    (∀ (rooms : List Room) (course : Course) (r : Rng),
      (rooms.filter (fun room => room.type == "classroom" &&
          jsOrNat course.expectedStudents 60 ≤ room.capacity)).length ≠ 0 →
      ∃ rm ∈ rooms.filter (fun room => room.type == "classroom" &&
          jsOrNat course.expectedStudents 60 ≤ room.capacity),
        (findSuitableRoom rooms course r).1 = rm.name) ∧
    (∀ (rooms : List Room) (course : Course) (r : Rng) (rm : Room),
      (rooms.filter (fun room => room.type == "classroom" &&
          jsOrNat course.expectedStudents 60 ≤ room.capacity)).length = 0 →
      rooms.find? (fun room => room.type == "classroom") = some rm →
      rm.name ≠ "" →
      (findSuitableRoom rooms course r).1 = rm.name) ∧
    (∀ (rooms : List Room) (course : Course) (r : Rng),
      rooms.find? (fun room => room.type == "classroom") = none →
      (findSuitableRoom rooms course r).1 = "Room 201") ∧
    (∀ (rooms : List Room) (course : Course) (r : Rng),
      (rooms.filter (fun room => room.type == "lab")).length ≠ 0 →
      ∃ rm ∈ rooms.filter (fun room => room.type == "lab"),
        (findLabRoom rooms course r).1 = rm.name) ∧
    (∀ (rooms : List Room) (course : Course) (r : Rng),
      (rooms.filter (fun room => room.type == "lab")).length = 0 →
      (findLabRoom rooms course r).1 = "Lab 101") := by
  refine ⟨?_, ?_, ?_, ?_, ?_⟩
  · intro rooms course r h
    have hidx := randBelow_lt r h
    refine ⟨(rooms.filter (fun room => room.type == "classroom" &&
        jsOrNat course.expectedStudents 60 ≤ room.capacity)).getD
          (randBelow (rooms.filter (fun room => room.type == "classroom" &&
            jsOrNat course.expectedStudents 60 ≤ room.capacity)).length r).1 default, ?_, ?_⟩
    · rw [List.getD_eq_getElem _ default hidx]
      exact List.getElem_mem _
    · unfold findSuitableRoom
      simp only []
      rw [if_neg h]
  · intro rooms course r rm h hf hne
    unfold findSuitableRoom
    simp only []
    rw [if_pos h, hf]
    show jsOrStr (some rm.name) "Room 201" = rm.name
    unfold jsOrStr
    simp only []
    rw [if_neg hne]
  · intro rooms course r hnone
    have hfe : rooms.filter (fun room => room.type == "classroom" &&
        jsOrNat course.expectedStudents 60 ≤ room.capacity) = [] := by
      rw [List.filter_eq_nil_iff]
      intro a ha
      have h2 := List.find?_eq_none.mp hnone a ha
      simp only [Bool.not_eq_true] at h2
      simp [h2]
    unfold findSuitableRoom
    simp only []
    rw [hfe, hnone]
    rfl
  · intro rooms course r h
    have hidx := randBelow_lt r h
    refine ⟨(rooms.filter (fun room => room.type == "lab")).getD
        (randBelow (rooms.filter (fun room => room.type == "lab")).length r).1 default, ?_, ?_⟩
    · rw [List.getD_eq_getElem _ default hidx]
      exact List.getElem_mem _
    · unfold findLabRoom
      simp only []
      rw [if_neg h]
  · intro rooms course r h
    unfold findLabRoom
    simp only []
    rw [if_pos h]

/-- Claim C8 (amended): the gap threshold break injection consults is the
constructor default of ten minutes, never the merged caller override — a
break is inserted between sorted-adjacent sessions exactly when the gap
exceeds that default, and the produced grid is invariant under every
override that leaves maxClassesPerDay unchanged (in particular under the
minBreakMinutes override). -/
theorem claim_C8 :
    defaultConstraints.MIN_BREAK_BETWEEN_CLASSES = 10 ∧
    (∀ (a b : Session) (rest : List Session) (n : Nat),
      (defaultConstraints.MIN_BREAK_BETWEEN_CLASSES <
          getTimeDifference (splitPart a.time '-' 1) (splitPart b.time '-' 0) →
        (insertBreaksAux defaultConstraints.MIN_BREAK_BETWEEN_CLASSES (a :: b :: rest) n).1
          = a :: breakSession n (splitPart a.time '-' 1 ++ "-" ++ splitPart b.time '-' 0)
              :: (insertBreaksAux defaultConstraints.MIN_BREAK_BETWEEN_CLASSES
                    (b :: rest) (n + 1)).1) ∧
      (¬ defaultConstraints.MIN_BREAK_BETWEEN_CLASSES <
          getTimeDifference (splitPart a.time '-' 1) (splitPart b.time '-' 0) →
        (insertBreaksAux defaultConstraints.MIN_BREAK_BETWEEN_CLASSES (a :: b :: rest) n).1
          = a :: (insertBreaksAux defaultConstraints.MIN_BREAK_BETWEEN_CLASSES
              (b :: rest) n).1)) ∧
    (∀ (sd : SectionData) (ov1 ov2 : ConstraintOverrides) (r : Rng),
      ov1.MAX_CLASSES_PER_DAY = ov2.MAX_CLASSES_PER_DAY →
      Except.map (fun p => (p.1.timetable, p.1.sectionId)) (generateTimetable sd ov1 r)
        = Except.map (fun p => (p.1.timetable, p.1.sectionId)) (generateTimetable sd ov2 r)) := by
  refine ⟨rfl, ?_, generateTimetable_minBreak_irrelevant⟩
  intro a b rest n
  constructor
  · intro h
    simp only [insertBreaksAux]
    rw [if_pos h]
  · intro h
    simp only [insertBreaksAux]
    rw [if_neg h]

/-- Claim C9 (amended): with zero courses generation returns ok, the grid
is the six empty days with no session at all — no lunch or break markers
are inserted into empty days — the random stream is returned untouched,
and the score of that grid is exactly 100. -/
theorem claim_C9 : ∀ (d s sec : String) (f : List Faculty) (rm : List Room) (ts : List Slot)
    (ov : ConstraintOverrides) (r : Rng),
    generateTimetable ⟨d, s, sec, [], f, rm, ts⟩ ov r
      = .ok (⟨initTimetable, d ++ "-" ++ s ++ "-" ++ sec,
          mergeConstraints defaultConstraints ov⟩, r) ∧
    allSessions initTimetable = [] ∧
    calculateTimetableScore initTimetable = 100 :=
  fun _ _ _ _ _ _ _ _ => ⟨rfl, rfl, rfl⟩

/-- Claim C10: right after the construction phase the Saturday bucket is
still empty — both placement passes sample days from Monday through Friday
only — while the relocation repair pass can land a session on Saturday, as
the second conjunct shows on a week whose five weekdays all conflict. -/
theorem claim_C10 :
    (∀ (tcs lcs : List Course) (f : List Faculty) (rooms : List Room) (tts : List Slot)
        (k : Constraints) (n1 : Nat) (r1 : Rng) (g1 : Grid) (n2 : Nat) (r2 : Rng)
        (g2 : Grid) (n3 : Nat) (r3 : Rng),
      scheduleTheoryCourses initTimetable tcs f rooms tts k n1 r1 = .ok (g1, n2, r2) →
      scheduleLabCourses g1 lcs f rooms tts k n2 r2 = .ok (g2, n3, r3) →
      lookupDay g2 "Saturday" = some []) ∧
    (getDay (moveClassToResolveConflict c10grid "Monday" c10x) "Saturday").map Session.id
      = [0] := by
  constructor
  · intro tcs lcs f rooms tts k n1 r1 g1 n2 r2 g2 n3 r3 h1 h2
    obtain ⟨-, -, sat1, -, -, -, -⟩ :=
      scheduleTheoryGo_spec f rooms tts k tcs initTimetable n1 r1 g1 n2 r2 h1
    obtain ⟨-, -, sat2, -, -, -⟩ :=
      scheduleLabGo_spec f rooms tts k lcs g1 n2 r2 g2 n3 r3 h2
    have hsat : "Saturday" ∉ weekdays := by decide
    rw [sat2 _ hsat, sat1 _ hsat]
    rfl
  · decide

/-! ### Witness data -/

def w1course : Course := thCourse "V1" "v1"

def w1ts : List Slot := [⟨"09:00", "10:00", "theory"⟩]

def w1r : Rng := streamOf [0, 0]

/-- The session the witness run places on Monday. -/
def w1sess : Session :=
  { id := 0, time := "09:00-10:00", course := "V1", code := some "V1",
    teacher := some "v1", room := some "Room 201", type := "theory", credits := some 3,
    duration := none, isBreak := false, isLunch := false }

def w1g1 : Grid :=
  [("Monday", [w1sess]), ("Tuesday", []), ("Wednesday", []), ("Thursday", []),
   ("Friday", []), ("Saturday", [])]

/-- The stream state the witness run hands back. -/
def w1r1 : Rng :=
  match scheduleTheoryCourses initTimetable [w1course] [] [] w1ts defaultConstraints 0 w1r with
  | .ok (_, _, rr) => rr
  | .error _ => w1r

def c4wgrid : Grid := [("Monday", [])]

/-- The lab session the witness pipeline schedules. -/
def w5lab : Session :=
  { id := 0, time := "10:00-12:00", course := "ML Lab", code := some "L1L",
    teacher := some "t1", room := some "Lab 101", type := "lab", credits := some 1,
    duration := some 2, isBreak := false, isLunch := false }

def w5res : GeneratedTimetable :=
  { timetable := [("Monday", [w5lab, lunchSession 1]), ("Tuesday", []), ("Wednesday", []),
      ("Thursday", []), ("Friday", []), ("Saturday", [])],
    sectionId := "CSE-3-A",
    constraints := defaultConstraints }

def w5rng : Rng :=
  match generateTimetable w5sd {} (streamOf [0, 0]) with
  | .ok (_, rr) => rr
  | .error _ => streamOf [0, 0]

def c7course : Course := thCourse "P1" "p1"

def c8a : Session := mkTh 6

def c8b : Session := { mkTh 7 with time := "10:30-11:30" }

/-- The session the witness run places on Monday. -/
def w10sess : Session :=
  { id := 0, time := "09:00-10:00", course := "W1", code := some "W1",
    teacher := some "w1", room := some "Room 201", type := "theory", credits := some 3,
    duration := none, isBreak := false, isLunch := false }

def w10g1 : Grid :=
  [("Monday", [w10sess]), ("Tuesday", []), ("Wednesday", []), ("Thursday", []),
   ("Friday", []), ("Saturday", [])]

def w10r1 : Rng :=
  match scheduleTheoryCourses initTimetable [w10course] [] [] w10ts defaultConstraints 0 w10r with
  | .ok (_, _, rr) => rr
  | .error _ => w10r

/-! ### Witnesses -/

/-- Witness for claim C1: a run that places one theory course on Monday,
whose every bucket then satisfies the ceiling. -/
theorem claim_C1_witness :
    scheduleTheoryCourses initTimetable [w1course] [] [] w1ts defaultConstraints 0 w1r
      = .ok (w1g1, 1, w1r1) ∧
    [w1sess].length ≤ defaultConstraints.MAX_CLASSES_PER_DAY :=
  ⟨rfl, claim_C1 [w1course] [] [] w1ts defaultConstraints w1r w1g1 1 w1r1 rfl
    ("Monday", [w1sess]) (by decide)⟩

/-- Witness for claim C2: a concrete course under a zero ceiling exhausts
its budget and the call still returns ok with the grid unchanged. -/
theorem claim_C2_witness :
    ∃ r', scheduleTheoryCourses initTimetable [thCourse "T1" "t1"] [] []
      [⟨"09:00", "10:00", "theory"⟩] { defaultConstraints with MAX_CLASSES_PER_DAY := 0 }
      0 (streamOf []) = .ok (initTimetable, 0, r') :=
  claim_C2 { defaultConstraints with MAX_CLASSES_PER_DAY := 0 } rfl
    [thCourse "T1" "t1"] [] [] [⟨"09:00", "10:00", "theory"⟩] 0 (streamOf [])

/-- Witness for claim C4: with an empty room list both samplers are
constant, so calls under two different streams agree. -/
theorem claim_C4_witness :
    Except.map Prod.fst (canScheduleCourse c4wgrid "Monday" (some c4slot) c4course []
        [] defaultConstraints (streamOf []))
      = Except.map Prod.fst (canScheduleCourse c4wgrid "Monday" (some c4slot) c4course []
        [] defaultConstraints (fun _ => 7)) ∧
    Except.map Prod.fst (canScheduleLab c4wgrid "Monday" (some c4slot) c4course []
        [] defaultConstraints (streamOf []))
      = Except.map Prod.fst (canScheduleLab c4wgrid "Monday" (some c4slot) c4course []
        [] defaultConstraints (fun _ => 7)) :=
  ⟨claim_C4.1 c4wgrid "Monday" (some c4slot) c4course [] [] defaultConstraints
      (streamOf []) (fun _ => 7) rfl,
    claim_C4.2 c4wgrid "Monday" (some c4slot) c4course [] [] defaultConstraints
      (streamOf []) (fun _ => 7) rfl⟩

/-- Witness for claim C5: the full pipeline on one lab course returns a
grid holding a single two-hour lab block and a lunch marker. -/
theorem claim_C5_witness :
    generateTimetable w5sd {} (streamOf [0, 0]) = .ok (w5res, w5rng) ∧
    labCodeCount w5res.timetable "L1L" ≤ 1 ∧
    List.countP labDurBad (allSessions w5res.timetable) = 0 :=
  ⟨rfl, (claim_C5 w5sd {} (streamOf [0, 0]) w5res w5rng rfl).1 "L1L",
    (claim_C5 w5sd {} (streamOf [0, 0]) w5res w5rng rfl).2⟩

/-- Witness for claim C6: on the concrete overloaded week the pass
permutes the sessions and the chosen target day Tuesday has a strictly
smaller bucket than Monday. -/
theorem claim_C6_witness :
    List.Perm (allSessions (balanceDailyWorkload c6grid defaultConstraints))
      (allSessions c6grid) ∧
    ("Tuesday" ∈ ["Tuesday", "Wednesday", "Thursday", "Friday", "Saturday"] ∧
      ((getDay c6grid "Tuesday").length < (getDay c6grid "Monday").length ∨
        (["Tuesday", "Wednesday", "Thursday", "Friday", "Saturday"] :
          List String)[0]? = some "Tuesday")) :=
  ⟨(claim_C6.1 c6grid defaultConstraints (show (idsOf c6grid).Nodup by decide)).1,
    claim_C6.2 "Monday" ["Tuesday", "Wednesday", "Thursday", "Friday", "Saturday"]
      c6grid "Tuesday" (by decide)⟩

/-- Witness for claim C7: an empty room list still yields the default room
identifiers. -/
theorem claim_C7_witness :
    (findSuitableRoom [] c7course (streamOf [])).1 = "Room 201" ∧
    (findLabRoom [] c7course (streamOf [])).1 = "Lab 101" :=
  ⟨claim_C7.2.2.1 [] c7course (streamOf []) rfl,
    claim_C7.2.2.2.2 [] c7course (streamOf []) rfl⟩

/-- Witness for claim C8: a thirty-minute gap gets a break marker against
the ten-minute default, and the thousand-minute override changes nothing
in the produced grid. -/
theorem claim_C8_witness :
    (insertBreaksAux defaultConstraints.MIN_BREAK_BETWEEN_CLASSES (c8a :: c8b :: []) 5).1
      = c8a :: breakSession 5 (splitPart c8a.time '-' 1 ++ "-" ++ splitPart c8b.time '-' 0)
          :: (insertBreaksAux defaultConstraints.MIN_BREAK_BETWEEN_CLASSES (c8b :: []) 6).1 ∧
    Except.map (fun p => (p.1.timetable, p.1.sectionId)) (generateTimetable c8sd c8ov c8rng)
      = Except.map (fun p => (p.1.timetable, p.1.sectionId)) (generateTimetable c8sd {} c8rng) :=
  ⟨(claim_C8.2.1 c8a c8b [] 5).1 (by decide),
    claim_C8.2.2 c8sd c8ov {} c8rng rfl⟩

/-- Witness for claim C10: a run that places one theory course leaves
Saturday empty after both construction passes. -/
theorem claim_C10_witness : lookupDay w10g1 "Saturday" = some [] :=
  claim_C10.1 [w10course] [] [] [] w10ts defaultConstraints 0 w10r w10g1 1 w10r1
    w10g1 1 w10r1 rfl rfl

/-! ### Counterexamples -/

/-- Counterexample to claim C1 as stated: with a ceiling of one class per
day, the final grid generateTimetable returns has a day whose non-break
non-lunch session count exceeds the merged ceiling. -/
theorem claim_C1_cex : (generateTimetable c1sd c1ov c1rng).map (fun p =>
    p.1.timetable.any (fun e =>
      p.1.constraints.MAX_CLASSES_PER_DAY <
        (e.2.filter (fun c => !c.isBreak && !c.isLunch)).length)) = .ok true := by decide

/-- Counterexample to claim C2 as stated: a run in which the only course
exhausts its entire attempt budget returns exactly the same value as the
run without that course — no unplaced record distinguishes them. -/
theorem claim_C2_cex : c2sd.courses ≠ c2sdNo.courses ∧
    (generateTimetable c2sd c2ov c2rng).map Prod.fst
      = (generateTimetable c2sdNo c2ov c2rng).map Prod.fst := ⟨by decide, by decide⟩

/-- Counterexample to claim C4 as stated: two calls of canScheduleCourse
with the identical grid, day, slot, course and room list return false and
then true, because the second call samples a different room from the
advanced random stream. -/
theorem claim_C4_cex : Except.map Prod.fst c4res1 = .ok false ∧
    Except.map Prod.fst c4res2 = .ok true := ⟨rfl, rfl⟩

/-- Counterexample to claim C6 as stated: the first relocated sessions land
on Tuesday, the first day with a smaller bucket, even though Wednesday has
strictly fewer sessions than Tuesday. -/
theorem claim_C6_cex :
    (getDay (balanceDailyWorkload c6grid defaultConstraints) "Tuesday").map Session.id
      = [5, 0, 1] ∧
    (getDay c6grid "Wednesday").length < (getDay c6grid "Tuesday").length :=
  ⟨by decide, by decide⟩

/-- Counterexample to claim C8 as stated: with the caller override raising
the minimum gap to a thousand minutes, a break is still inserted into a
thirty-minute gap, because injection reads the constructor default. -/
theorem claim_C8_cex : (generateTimetable c8sd c8ov c8rng).map (fun p =>
    ((allSessions p.1.timetable).any (fun c => c.isBreak && c.time == "10:00-10:30"),
      p.1.constraints.MIN_BREAK_BETWEEN_CLASSES)) = .ok (true, 1000) := by decide

/-- Counterexample to claim C9 as stated: with zero courses the returned
grid holds no session at all — in particular no lunch or break markers
populate it. -/
theorem claim_C9_cex : (generateTimetable c9sd {} (streamOf [])).map
    (fun p => allSessions p.1.timetable) = .ok [] := by decide

end SempTT
